import Mathlib

/-!
Verification of the changelog migration pipeline (feed reader, content
fetcher, combiner).  Python strings are embedded as `List Char`; each
definition mirrors one function of the source (`main.py`, `fetch_mdx.py`,
`combine_mdx.py`), with stdlib behaviour (`str.strip`, `str.split`,
`re.sub`, `datetime.strptime`/`strftime`, `urllib.parse.urlparse`)
modelled explicitly where the pipeline uses it.
-/

namespace Changelog

/-! ## Python string primitives -/

/-- The whitespace recognised by Python's `str.strip()`, modelled for the
ASCII range (Python additionally strips rare Unicode space code points,
which the feed content the pipeline handles does not contain). -/
def isWsChar (c : Char) : Bool :=
  c = ' ' || c = '\t' || c = '\n' || c = '\r' || c = '\x0b' || c = '\x0c'

/-- `str.lstrip` for the character class `p`. -/
def lstripP (p : Char → Bool) (l : List Char) : List Char :=
  l.dropWhile p

/-- `str.rstrip` for the character class `p`. -/
def rstripP (p : Char → Bool) (l : List Char) : List Char :=
  (l.reverse.dropWhile p).reverse

/-- Python `str.strip` for the character class `p` (both ends). -/
def stripP (p : Char → Bool) (l : List Char) : List Char :=
  rstripP p (lstripP p l)

/-- Python `s.strip()` (whitespace). -/
def pyStripWs (l : List Char) : List Char :=
  stripP isWsChar l

/-- Python `s.strip(c)` for a single-character set. -/
def pyStripChar (c : Char) (l : List Char) : List Char :=
  stripP (fun x => x = c) l

/-- Python `s.split(sep)` for a one-character separator: always returns at
least one piece, and the empty string splits to `[""]`. -/
def pySplit (sep : Char) : List Char → List (List Char)
  | [] => [[]]
  | c :: rest =>
    if c = sep then [] :: pySplit sep rest
    else
      match pySplit sep rest with
      | [] => [[c]]
      | h :: t => (c :: h) :: t

/-- Python `sep.join(pieces)` for a one-character separator. -/
def pyJoin (sep : Char) (ls : List (List Char)) : List Char :=
  List.intercalate [sep] ls

theorem pySplit_ne_nil (sep : Char) (l : List Char) : pySplit sep l ≠ [] := by
  induction l with
  | nil => simp [pySplit]
  | cons c rest ih =>
    simp only [pySplit]
    split
    · simp
    · cases h : pySplit sep rest with
      | nil => simp
      | cons a t => simp

/-! ## Slug derivation

`main.py` (`get_changelog_rss`) and `fetch_mdx.py` (`extract_slug_from_url`)
normalise the last `/`-segment with
`re.sub(r"[^\w\-]", "-", slug)`, `re.sub(r"-+", "-", slug).strip("-")`.
-/

/-- Python's Unicode-aware regex class `\w` (letters, digits, underscore).
Modelled for code points up to U+00FF: ASCII alphanumerics, `_`, and the
Latin-1 letters (U+00C0–U+00FF except `×` U+00D7 and `÷` U+00F7).  Code
points above U+00FF are conservatively treated as non-word; no theorem
below depends on the classification of those code points. -/
def isPyWordChar (c : Char) : Bool :=
  c.isAlphanum || c = '_' ||
    (0xC0 ≤ c.toNat && c.toNat ≤ 0xFF && c.toNat ≠ 0xD7 && c.toNat ≠ 0xF7)

/-- One character under `re.sub(r"[^\w\-]", "-", s)`: any character that is
neither a word character nor `-` is replaced by `-`. -/
def subNonWord (c : Char) : Char :=
  if isPyWordChar c || c = '-' then c else '-'

/-- `re.sub(r"-+", "-", s)`: collapse each run of `-` to a single `-`. -/
def collapseDash : List Char → List Char
  | [] => []
  | [c] => [c]
  | a :: b :: rest =>
    if a = '-' ∧ b = '-' then collapseDash (b :: rest)
    else a :: collapseDash (b :: rest)

/-- The shared slug normalisation:
`re.sub(r"[^\w\-]", "-", s)` then `re.sub(r"-+", "-", s).strip("-")`. -/
def normalizeSlug (s : List Char) : List Char :=
  pyStripChar '-' (collapseDash (s.map subNonWord))

/-- `main.py:get_changelog_rss` slug derivation: the whole link is
stripped of `/` at both ends and split on `/`; the last piece is
normalised.  (`parsed_path` is never the empty list, but the source's
`if parsed_path else "unknown"` fallback is kept.) -/
def slug_from_link (link : List Char) : List Char :=
  let parsed_path := pySplit '/' (pyStripChar '/' link)
  match parsed_path with
  | [] => ("unknown".toList)
  | _ :: _ => normalizeSlug (parsed_path.getLast?.getD [])

/-- Skip up to and including the first occurrence of `://`. -/
def splitScheme : List Char → Option (List Char)
  | ':' :: '/' :: '/' :: rest => some rest
  | _ :: rest => splitScheme rest
  | [] => none

/-- Modelled from `urllib.parse.urlparse(url).path` for absolute
`http(s)` URLs: the path starts at the first `/` after the `scheme://`
authority (empty if there is none); a string without `://` is treated as
a bare path.  Query/fragment/params splitting is omitted (the feed links
the pipeline handles have none). -/
def pathOf (u : List Char) : List Char :=
  match splitScheme u with
  | some rest => rest.dropWhile (fun c => c ≠ '/')
  | none => u

/-- `fetch_mdx.py:extract_slug_from_url`: split the URL path on `/` after
stripping `/` from both ends, then normalise the last piece; the
`"unknown-changelog"` fallback fires only if the split yields no pieces. -/
def extract_slug_from_url (url : List Char) : List Char :=
  let path_parts := pySplit '/' (pyStripChar '/' (pathOf url))
  match path_parts with
  | [] => ("unknown-changelog".toList)
  | _ :: _ => normalizeSlug (path_parts.getLast?.getD [])

/-! ## Dates

`datetime.strptime(s, "%a, %d %b %Y %H:%M:%S %Z")` and the `strftime`
formats `%Y-%m`, `%B %Y` and `%B %d, %Y` used by the pipeline.
-/

structure PyDateTime where
  year : Nat
  month : Nat
  day : Nat
  hour : Nat
  minute : Nat
  second : Nat
deriving DecidableEq

/-- `datetime.min` (used as the sort fallback for unannotated items). -/
def dtMin : PyDateTime := ⟨1, 1, 1, 0, 0, 0⟩

def isDigitC (c : Char) : Bool :=
  48 ≤ c.toNat && c.toNat ≤ 57

def digitVal (c : Char) : Nat :=
  c.toNat - 48

def digitChar (n : Nat) : Char :=
  Char.ofNat (48 + n)

/-- Consume the literal `lit` from the front of `s`. -/
def stripLit : List Char → List Char → Option (List Char)
  | [], s => some s
  | _ :: _, [] => none
  | c :: cs, x :: xs => if x = c then stripLit cs xs else none

/-- Try each literal in turn (regex alternation of fixed words). -/
def tryLits : List (List Char) → List Char → Option (List Char)
  | [], _ => none
  | w :: ws, s =>
    match stripLit w s with
    | some r => some r
    | none => tryLits ws s

def weekdayAbbrs : List (List Char) :=
  [("Mon".toList), ("Tue".toList), ("Wed".toList), ("Thu".toList),
   ("Fri".toList), ("Sat".toList), ("Sun".toList)]

def monthAbbrs : List (List Char) :=
  [("Jan".toList), ("Feb".toList), ("Mar".toList), ("Apr".toList),
   ("May".toList), ("Jun".toList), ("Jul".toList), ("Aug".toList),
   ("Sep".toList), ("Oct".toList), ("Nov".toList), ("Dec".toList)]

/-- `%a`: an abbreviated weekday name (value unused by `strptime` here). -/
def readWeekday (s : List Char) : Option (List Char) :=
  tryLits weekdayAbbrs s

/-- Try the month abbreviations, numbering from `i`. -/
def tryMonths : Nat → List (List Char) → List Char → Option (Nat × List Char)
  | _, [], _ => none
  | i, m :: ms, s =>
    match stripLit m s with
    | some r => some (i, r)
    | none => tryMonths (i + 1) ms s

/-- `%b`: abbreviated month name, yielding 1–12. -/
def readMonthAbbr (s : List Char) : Option (Nat × List Char) :=
  tryMonths 1 monthAbbrs s

/-- `%d` (CPython `TimeRE`): two digits giving 01–31, else one digit 1–9. -/
def readDay : List Char → Option (Nat × List Char)
  | a :: b :: rest =>
    if isDigitC a ∧ isDigitC b then
      let v := digitVal a * 10 + digitVal b
      if 1 ≤ v ∧ v ≤ 31 then some (v, rest) else none
    else if isDigitC a ∧ 1 ≤ digitVal a then some (digitVal a, b :: rest)
    else none
  | [a] => if isDigitC a ∧ 1 ≤ digitVal a then some (digitVal a, []) else none
  | [] => none

/-- `%Y` (CPython `TimeRE`): exactly four digits. -/
def read4Digits : List Char → Option (Nat × List Char)
  | a :: b :: c :: d :: rest =>
    if isDigitC a ∧ isDigitC b ∧ isDigitC c ∧ isDigitC d then
      some (((digitVal a * 10 + digitVal b) * 10 + digitVal c) * 10 + digitVal d, rest)
    else none
  | _ => none

/-- `%H`/`%M`/`%S`: two digits if the value fits the field's bound,
otherwise a single digit (mirroring the regex alternation). -/
def read2Or1 (bound : Nat) : List Char → Option (Nat × List Char)
  | a :: b :: rest =>
    if isDigitC a ∧ isDigitC b ∧ digitVal a * 10 + digitVal b ≤ bound then
      some (digitVal a * 10 + digitVal b, rest)
    else if isDigitC a then some (digitVal a, b :: rest)
    else none
  | [a] => if isDigitC a then some (digitVal a, []) else none
  | [] => none

/-- `%Z`: a known timezone name; the feeds use `GMT`/`UTC`. -/
def readTz (s : List Char) : Option (List Char) :=
  match stripLit ("GMT".toList) s with
  | some r => some r
  | none => stripLit ("UTC".toList) s

def isLeapYear (y : Nat) : Bool :=
  y % 4 = 0 && (y % 100 ≠ 0 || y % 400 = 0)

def daysInMonth (y m : Nat) : Nat :=
  if m = 2 then (if isLeapYear y then 29 else 28)
  else if m = 4 ∨ m = 6 ∨ m = 9 ∨ m = 11 then 30
  else if 1 ≤ m ∧ m ≤ 12 then 31
  else 0

/-- The `"%a, %d %b %Y"` part of the format: day, month, year, rest. -/
def parseDatePart (s : List Char) : Option (Nat × Nat × Nat × List Char) :=
  (readWeekday s).bind fun s1 =>
  (stripLit (", ".toList) s1).bind fun s2 =>
  (readDay s2).bind fun ds =>
  (stripLit (" ".toList) ds.2).bind fun s4 =>
  (readMonthAbbr s4).bind fun ms =>
  (stripLit (" ".toList) ms.2).bind fun s6 =>
  (read4Digits s6).bind fun ys =>
  some (ds.1, ms.1, ys.1, ys.2)

/-- The `"%H:%M:%S"` part of the format: hour, minute, second, rest. -/
def parseTimePart (s : List Char) : Option (Nat × Nat × Nat × List Char) :=
  (read2Or1 23 s).bind fun hs =>
  (stripLit (":".toList) hs.2).bind fun s10 =>
  (read2Or1 59 s10).bind fun mins =>
  (stripLit (":".toList) mins.2).bind fun s12 =>
  (read2Or1 59 s12).bind fun secs =>
  some (hs.1, mins.1, secs.1, secs.2)

/-- `datetime.strptime(s, "%a, %d %b %Y %H:%M:%S %Z")`, `None` on
`ValueError` (either a regex mismatch, trailing input, or an out-of-range
field rejected by the `datetime` constructor). -/
def parsePubDate (s : List Char) : Option PyDateTime :=
  (parseDatePart s).bind fun dmy =>
  (stripLit (" ".toList) dmy.2.2.2).bind fun s8 =>
  (parseTimePart s8).bind fun hms =>
  (stripLit (" ".toList) hms.2.2.2).bind fun s14 =>
  (readTz s14).bind fun s15 =>
  if s15 = [] ∧ 1 ≤ dmy.2.2.1 ∧ dmy.1 ≤ daysInMonth dmy.2.2.1 dmy.2.1 then
    some ⟨dmy.2.2.1, dmy.2.1, dmy.1, hms.1, hms.2.1, hms.2.2.1⟩
  else none

/-- Zero-padded two-digit decimal (for `%m`, `%d`). -/
def pad2 (n : Nat) : List Char :=
  [digitChar (n / 10 % 10), digitChar (n % 10)]

/-- Zero-padded four-digit decimal, per CPython's documented `%Y`. -/
def pad4 (n : Nat) : List Char :=
  [digitChar (n / 1000 % 10), digitChar (n / 100 % 10),
   digitChar (n / 10 % 10), digitChar (n % 10)]

/-- `dt.strftime("%Y-%m")`: the month bucket key. -/
def formatYM (dt : PyDateTime) : List Char :=
  pad4 dt.year ++ '-' :: pad2 dt.month

def monthNamesFull : List (List Char) :=
  [("January".toList), ("February".toList), ("March".toList),
   ("April".toList), ("May".toList), ("June".toList), ("July".toList),
   ("August".toList), ("September".toList), ("October".toList),
   ("November".toList), ("December".toList)]

/-- `%B`: full month name. -/
def monthName (m : Nat) : List Char :=
  (monthNamesFull.getD (m - 1) [])

/-- `combine_mdx.py:format_date_for_label`: `"%B %Y"`, falling back to the
raw string when parsing raises `ValueError`. -/
def format_date_for_label (pub_date_str : List Char) : List Char :=
  match parsePubDate pub_date_str with
  | some dt => monthName dt.month ++ ' ' :: pad4 dt.year
  | none => pub_date_str

/-- `combine_mdx.py:format_full_date`: `"%B %d, %Y"`, falling back to the
raw string when parsing raises `ValueError`.  (`main.py`'s copy is
identical except that the `ValueError` is not caught; within the pipeline
it is only reached on dates that parse.) -/
def format_full_date (pub_date_str : List Char) : List Char :=
  match parsePubDate pub_date_str with
  | some dt => monthName dt.month ++ ' ' :: pad2 dt.day ++ (", ".toList) ++ pad4 dt.year
  | none => pub_date_str

/-- Python's `datetime` total order, encoded order-isomorphically on the
constructor-validated field ranges (`month ≤ 12 < 13`, `day ≤ 31 < 32`,
`hour < 24`, `minute < 60`, `second < 60`). -/
def dtKeyNat (dt : PyDateTime) : Nat :=
  ((((dt.year * 13 + dt.month) * 32 + dt.day) * 24 + dt.hour) * 60 + dt.minute) * 60 + dt.second

/-- Field-lexicographic comparison of datetimes (how Python compares
`datetime` values). -/
def dtFieldLe (a b : PyDateTime) : Prop :=
  a.year < b.year ∨ (a.year = b.year ∧
    (a.month < b.month ∨ (a.month = b.month ∧
      (a.day < b.day ∨ (a.day = b.day ∧
        (a.hour < b.hour ∨ (a.hour = b.hour ∧
          (a.minute < b.minute ∨ (a.minute = b.minute ∧
            a.second ≤ b.second)))))))))

/-! ## Heading shift and date stamp

`add_heading_level_and_date(content, pub_date, spaces=2)`.  The loop
logic is identical in `main.py` and `combine_mdx.py`, but the two copies
insert different date-stamp literals: `combine_mdx.py` is
encoding-corrupted (its UTF-8 text was decoded as a legacy code page and
re-saved), so where `main.py` inserts the calendar glyph `🗓️`
(U+1F5D3 U+FE0F), `combine_mdx.py` inserts the mojibake sequence
U+011F U+0178 U+2014 U+201C U+00EF U+00B8.  Both copies are embedded:
the unprefixed definitions are `main.py`'s, the `cm_`-prefixed ones are
`combine_mdx.py`'s.
-/

/-- `len(stripped) - len(stripped.lstrip("#"))`: the heading level. -/
def headingLevel (stripped : List Char) : Nat :=
  stripped.length - (stripped.dropWhile (fun c => c = '#')).length

/-- `"#" * (level + 1) + " " + stripped[level:].strip()`. -/
def newHeading (stripped : List Char) : List Char :=
  List.replicate (headingLevel stripped + 1) '#' ++
    ' ' :: pyStripWs (stripped.drop (headingLevel stripped))

/-- `main.py`'s inserted date line `" " * spaces + f"🗓️ **{...}**"`. -/
def date_stamp_line (pub_date : List Char) (spaces : Nat) : List Char :=
  List.replicate spaces ' ' ++ ("🗓️ **".toList) ++ format_full_date pub_date ++ ("**".toList)

/-- `combine_mdx.py`'s inserted date line: the file is
encoding-corrupted, so its literal is the mojibake sequence
U+011F U+0178 U+2014 U+201C U+00EF U+00B8 (the legacy-code-page reading
of the glyph's UTF-8 bytes, with the final byte dropped), not the
calendar glyph. -/
def cm_date_stamp_line (pub_date : List Char) (spaces : Nat) : List Char :=
  List.replicate spaces ' ' ++ ("ğŸ—“ï¸ **".toList) ++
    format_full_date pub_date ++ ("**".toList)

/-- One iteration of the line loop: the lines it appends and the updated
`first_heading_found` flag. -/
def processLine (spaces : Nat) (pub_date : List Char) (first_heading_found : Bool)
    (line : List Char) : List (List Char) × Bool :=
  let stripped_line := pyStripWs line
  if stripped_line.head? = some '#' then
    let nh := List.replicate spaces ' ' ++ newHeading stripped_line
    if first_heading_found then ([nh], true)
    else ([nh, [], date_stamp_line pub_date spaces, []], true)
  else if stripped_line ≠ [] then
    ([List.replicate spaces ' ' ++ line], first_heading_found)
  else
    ([line], first_heading_found)

/-- The line loop of `add_heading_level_and_date`. -/
def processLines (spaces : Nat) (pub_date : List Char) :
    Bool → List (List Char) → List (List Char)
  | _, [] => []
  | ff, l :: ls =>
    let step := processLine spaces pub_date ff l
    step.1 ++ processLines spaces pub_date step.2 ls

/-- `add_heading_level_and_date` (`main.py`): split on newlines, process
each line, rejoin. -/
def add_heading_level_and_date (content pub_date : List Char)
    (spaces : Nat := 2) : List Char :=
  pyJoin '\n' (processLines spaces pub_date false (pySplit '\n' content))

/-- One iteration of `combine_mdx.py`'s line loop: identical to
`processLine` except that the inserted stamp is the mojibake
`cm_date_stamp_line`. -/
def cm_processLine (spaces : Nat) (pub_date : List Char) (first_heading_found : Bool)
    (line : List Char) : List (List Char) × Bool :=
  let stripped_line := pyStripWs line
  if stripped_line.head? = some '#' then
    let nh := List.replicate spaces ' ' ++ newHeading stripped_line
    if first_heading_found then ([nh], true)
    else ([nh, [], cm_date_stamp_line pub_date spaces, []], true)
  else if stripped_line ≠ [] then
    ([List.replicate spaces ' ' ++ line], first_heading_found)
  else
    ([line], first_heading_found)

/-- The line loop of `combine_mdx.py`'s `add_heading_level_and_date`. -/
def cm_processLines (spaces : Nat) (pub_date : List Char) :
    Bool → List (List Char) → List (List Char)
  | _, [] => []
  | ff, l :: ls =>
    let step := cm_processLine spaces pub_date ff l
    step.1 ++ cm_processLines spaces pub_date step.2 ls

/-- `add_heading_level_and_date` (`combine_mdx.py`). -/
def cm_add_heading_level_and_date (content pub_date : List Char)
    (spaces : Nat := 2) : List Char :=
  pyJoin '\n' (cm_processLines spaces pub_date false (pySplit '\n' content))

/-- A non-heading line as emitted: indented if it strips to non-empty,
passed through unchanged otherwise. -/
def indentNonblank (spaces : Nat) (l : List Char) : List Char :=
  if pyStripWs l = [] then l else List.replicate spaces ' ' ++ l

/-- How a line is emitted once the first heading has been found: exactly
one output line, with no date stamp. -/
def lineAfterFirst (spaces : Nat) (pub_date : List Char) (l : List Char) : List Char :=
  if (pyStripWs l).head? = some '#' then
    List.replicate spaces ' ' ++ newHeading (pyStripWs l)
  else indentNonblank spaces l

/-! ## Grouping by month

`group_items_by_month` (`combine_mdx.py`; `main.py`'s copy is identical
except that the `ValueError` of an unparseable date is not caught).
-/

structure RssItem where
  link : List Char
  slug : List Char
  pubDate : List Char
deriving DecidableEq

def unknownKey : List Char := ("unknown".toList)

/-- The bucket key an annotated item was filed under. -/
def entryKey (x : RssItem × Option PyDateTime) : List Char :=
  match x.2 with
  | some dt => formatYM dt
  | none => unknownKey

/-- `defaultdict(list)` insertion: append `x` to the bucket keyed `k`,
creating the bucket at the end on first use (dicts preserve insertion
order). -/
def addToGroup (k : List Char) (x : RssItem × Option PyDateTime) :
    List (List Char × List (RssItem × Option PyDateTime)) →
    List (List Char × List (RssItem × Option PyDateTime))
  | [] => [(k, [x])]
  | (k', xs) :: rest =>
    if k' = k then (k', xs ++ [x]) :: rest else (k', xs) :: addToGroup k x rest

/-- Python string `<=` (code-point lexicographic, a proper pre-segment is
smaller). -/
def strLe : List Char → List Char → Bool
  | [], _ => true
  | _ :: _, [] => false
  | a :: as, b :: bs => if a < b then true else if b < a then false else strLe as bs

/-- The annotated-item datetime used by the inner sort:
`x.get("datetime", datetime.min)`. -/
def entryDtOf (x : RssItem × Option PyDateTime) : PyDateTime :=
  x.2.getD dtMin

/-- The descending key order of `sorted(..., key=lambda x: x[0],
reverse=True)`. -/
def groupRel (g1 g2 : List Char × List (RssItem × Option PyDateTime)) : Prop :=
  strLe g2.1 g1.1 = true

instance : DecidableRel groupRel := fun g1 g2 => by
  unfold groupRel; infer_instance

/-- The descending datetime order of
`items.sort(key=lambda x: x.get("datetime", datetime.min), reverse=True)`. -/
def entryRel (x1 x2 : RssItem × Option PyDateTime) : Prop :=
  dtKeyNat (entryDtOf x2) ≤ dtKeyNat (entryDtOf x1)

instance : DecidableRel entryRel := fun x1 x2 => by
  unfold entryRel; infer_instance

/-- The first pass of `group_items_by_month`: bucket each item (annotated
with its parsed date) under its `"%Y-%m"` key, or under `"unknown"` when
`strptime` raises `ValueError` (`combine_mdx.py` catches it). -/
def rawGroups (items : List RssItem) :
    List (List Char × List (RssItem × Option PyDateTime)) :=
  items.foldl (fun g it =>
    match parsePubDate it.pubDate with
    | some dt => addToGroup (formatYM dt) (it, some dt) g
    | none => addToGroup unknownKey (it, none) g) []

/-- `sorted(grouped.items(), key=lambda x: x[0], reverse=True)` then each
bucket `items.sort(key=..., reverse=True)`.  Python's sorts are stable;
they are modelled with Mathlib's stable `insertionSort` on the reversed
(descending) relation. -/
def sortGroups (raw : List (List Char × List (RssItem × Option PyDateTime))) :
    List (List Char × List (RssItem × Option PyDateTime)) :=
  (List.insertionSort groupRel raw).map
    (fun g => (g.1, List.insertionSort entryRel g.2))

/-- `combine_mdx.py:group_items_by_month`. -/
def group_items_by_month (items : List RssItem) :
    List (List Char × List (RssItem × Option PyDateTime)) :=
  sortGroups (rawGroups items)

/-- `main.py:group_items_by_month`: the same loop with no
`try`/`except`, so the first unparseable `pub_date` raises `ValueError`
out of the function (modelled by `none`). -/
def main_group_items_by_month (items : List RssItem) :
    Option (List (List Char × List (RssItem × Option PyDateTime))) :=
  (items.foldlM (fun g it =>
    (parsePubDate it.pubDate).map (fun dt => addToGroup (formatYM dt) (it, some dt) g)) []).map
    sortGroups

/-! ## Combining

`combine_mdx.py:consolidate_changelog` / `main.py:combine_changelog`.
File reads are abstracted as `readMdx : slug → Option content`
(`None` models a `FileNotFoundError`/`IOError` caught per item).
-/

def frontmatter : List Char :=
  ("---\ntitle: \"Changelog\"\ndescription: \"Product updates and announcements\"\n---\n\n".toList)

def updateOpen (label : List Char) : List Char :=
  ("<Update label=\"".toList) ++ label ++ ("\">\n".toList)

def updateClose : List Char := ("</Update>\n\n".toList)

/-- `combine_mdx.py:consolidate_changelog`'s month-wrapper emission
loop, folding from the accumulated document `acc`: skip the `"unknown"`
bucket; for a non-empty bucket emit the open marker labelled from its
first item, then each item whose read yields truthy (non-`None`,
non-empty) content — processed by `combine_mdx.py`'s own (mojibake)
transform copy — then the close marker. -/
def renderGroupsFrom (groups : List (List Char × List (RssItem × Option PyDateTime)))
    (readMdx : List Char → Option (List Char)) (acc0 : List Char) : List Char :=
  groups.foldl (fun acc g =>
    if g.1 = unknownKey then acc
    else
      match g.2 with
      | [] => acc
      | first :: _ =>
        (g.2.foldl (fun a x =>
          match readMdx x.1.slug with
          | none => a
          | some c =>
            if c = [] then a
            else a ++ cm_add_heading_level_and_date c x.1.pubDate ++ ("\n\n".toList))
          (acc ++ updateOpen (format_date_for_label first.1.pubDate))) ++ updateClose) acc0

/-- The wrapper loop started on the frontmatter, as both combiners do. -/
def renderGroups (groups : List (List Char × List (RssItem × Option PyDateTime)))
    (readMdx : List Char → Option (List Char)) : List Char :=
  renderGroupsFrom groups readMdx frontmatter

/-- `combine_mdx.py:consolidate_changelog`: frontmatter, then the grouped
month wrappers (the returned string is what is written to the output
file). -/
def consolidate_changelog (rss_items : List RssItem)
    (readMdx : List Char → Option (List Char)) : List Char :=
  renderGroups (group_items_by_month rss_items) readMdx

/-- The per-item loop of `main.py:combine_changelog` inside one month
wrapper: `read_mdx_file` has no exception handler, so a failed read
(modelled by `none`) raises `FileNotFoundError`/`IOError` out of the
whole combine (`none`); a read that returns falsy (empty) content is
skipped by `if mdx_content:`; otherwise the content is processed by
`main.py`'s (glyph) transform copy and appended. -/
def main_render_items (readMdx : List Char → Option (List Char)) :
    List (RssItem × Option PyDateTime) → List Char → Option (List Char)
  | [], acc => some acc
  | x :: xs, acc =>
    match readMdx x.1.slug with
    | none => none
    | some c =>
      if c = [] then main_render_items readMdx xs acc
      else main_render_items readMdx xs
        (acc ++ add_heading_level_and_date c x.1.pubDate ++ ("\n\n".toList))

/-- The month-wrapper loop of `main.py:combine_changelog`: like
`renderGroupsFrom`, but a failed per-item read aborts the whole
combine. -/
def main_render_groups (readMdx : List Char → Option (List Char)) :
    List (List Char × List (RssItem × Option PyDateTime)) → List Char →
    Option (List Char)
  | [], acc => some acc
  | g :: gs, acc =>
    if g.1 = unknownKey then main_render_groups readMdx gs acc
    else
      match g.2 with
      | [] => main_render_groups readMdx gs acc
      | first :: _ =>
        match main_render_items readMdx g.2
          (acc ++ updateOpen (format_date_for_label first.1.pubDate)) with
        | none => none
        | some acc2 => main_render_groups readMdx gs (acc2 ++ updateClose)

/-- `main.py:combine_changelog`: grouping raises on an unparseable
`pub_date`, and a failed `read_mdx_file` raises out of the rendering
loop; either uncaught exception aborts the combine stage (`none`). -/
def main_combine_changelog (rss_items : List RssItem)
    (readMdx : List Char → Option (List Char)) : Option (List Char) :=
  (main_group_items_by_month rss_items).bind
    (fun g => main_render_groups readMdx g frontmatter)

/-- The sequence of items whose processed content `renderGroups` appends:
items of non-`"unknown"` buckets, in emission order, whose read yields
truthy content. -/
def emitted_items (items : List RssItem)
    (readMdx : List Char → Option (List Char)) : List RssItem :=
  (group_items_by_month items).foldl (fun acc g =>
    if g.1 = unknownKey then acc
    else acc ++ g.2.filterMap (fun x =>
      match readMdx x.1.slug with
      | none => none
      | some c => if c = [] then none else some x.1)) []

/-! ## Fetch stage

HTTP is abstracted as `http : url → Option body`: `some body` for a 2xx
response (`raise_for_status` passes), `none` for a non-2xx response or a
network error (a `requests` exception).  File writes always succeed and
are recorded as `(filename, content)` events in order.
-/

/-- `fetch_mdx.py:convert_to_mdx` returns its input unchanged (the only
rewrite is commented out). -/
def convert_to_mdx (content : List Char) : List Char := content

/-- `fetch_mdx.py:main`'s per-item loop: writes performed, successful
count, failed count.  A fetch error or falsy (empty) body counts as a
failure and the loop continues. -/
def fetch_mdx_run (http : List Char → Option (List Char)) :
    List RssItem → List (List Char × List Char) × Nat × Nat
  | [] => ([], 0, 0)
  | it :: rest =>
    let slug := extract_slug_from_url it.link
    let acc := fetch_mdx_run http rest
    match http (it.link ++ (".md".toList)) with
    | none => (acc.1, acc.2.1, acc.2.2 + 1)
    | some c =>
      if c = [] then (acc.1, acc.2.1, acc.2.2 + 1)
      else ((slug ++ (".mdx".toList), convert_to_mdx c) :: acc.1, acc.2.1 + 1, acc.2.2)

/-- Outcome of `main.py:fetch_all_markdown`: either the loop completes
with its writes and success count, or an uncaught `requests` exception
aborts it after the writes already performed. -/
inductive FetchOutcome where
  | completed (writes : List (List Char × List Char)) (successful : Nat)
  | aborted (writes : List (List Char × List Char))
deriving DecidableEq

/-- `main.py:fetch_all_markdown`: `fetch_markdown_content` calls
`raise_for_status()` with no handler, so a non-2xx response or network
error raises out of the loop; an empty (falsy) body is neither saved nor
counted. -/
def fetch_all_markdown (http : List Char → Option (List Char)) :
    List RssItem → FetchOutcome
  | [] => .completed [] 0
  | it :: rest =>
    match http (it.link ++ (".md".toList)) with
    | none => .aborted []
    | some c =>
      if c = [] then fetch_all_markdown http rest
      else
        match fetch_all_markdown http rest with
        | .completed ws n => .completed ((it.slug ++ (".mdx".toList), c) :: ws) (n + 1)
        | .aborted ws => .aborted ((it.slug ++ (".mdx".toList), c) :: ws)

/-! ## Lemmas: the heading-shift transform -/

theorem processLines_true (spaces : Nat) (pd : List Char) (ls : List (List Char)) :
    processLines spaces pd true ls = ls.map (lineAfterFirst spaces pd) := by
  induction ls with
  | nil => rfl
  | cons l ls ih =>
    simp only [processLines, List.map_cons]
    by_cases h : (pyStripWs l).head? = some '#'
    · simp [processLine, lineAfterFirst, h, ih]
    · by_cases h2 : pyStripWs l = []
      · simp [processLine, lineAfterFirst, indentNonblank, h, h2, ih]
      · simp [processLine, lineAfterFirst, indentNonblank, h, h2, ih]

theorem processLines_noheading (spaces : Nat) (pd : List Char) (ls : List (List Char))
    (h : ∀ l ∈ ls, (pyStripWs l).head? ≠ some '#') :
    processLines spaces pd false ls = ls.map (indentNonblank spaces) := by
  induction ls with
  | nil => rfl
  | cons l ls ih =>
    have hl := h l (List.mem_cons_self l ls)
    have hrest := fun x hx => h x (List.mem_cons_of_mem l hx)
    simp only [processLines, List.map_cons]
    by_cases h2 : pyStripWs l = []
    · simp [processLine, indentNonblank, hl, h2, ih hrest]
    · simp [processLine, indentNonblank, hl, h2, ih hrest]

theorem processLines_first_heading (spaces : Nat) (pd : List Char)
    (pre : List (List Char)) (hl : List Char) (post : List (List Char))
    (hpre : ∀ l ∈ pre, (pyStripWs l).head? ≠ some '#')
    (hhl : (pyStripWs hl).head? = some '#') :
    processLines spaces pd false (pre ++ hl :: post) =
      pre.map (indentNonblank spaces) ++
        (List.replicate spaces ' ' ++ newHeading (pyStripWs hl)) ::
        [] :: date_stamp_line pd spaces :: [] :: post.map (lineAfterFirst spaces pd) := by
  induction pre with
  | nil =>
    simp only [List.nil_append, List.map_nil, processLines]
    simp [processLine, hhl, processLines_true]
  | cons p pre ih =>
    have hp := hpre p (List.mem_cons_self p pre)
    have hrest := fun x hx => hpre x (List.mem_cons_of_mem p hx)
    simp only [List.cons_append, processLines, List.map_cons]
    by_cases h2 : pyStripWs p = []
    · simp [processLine, indentNonblank, hp, h2, ih hrest]
    · simp [processLine, indentNonblank, hp, h2, ih hrest]

theorem mem_processLines_of_heading (spaces : Nat) (pd : List Char)
    (ls : List (List Char)) (line : List Char) (ff : Bool)
    (hmem : line ∈ ls) (hhead : (pyStripWs line).head? = some '#') :
    (List.replicate spaces ' ' ++ newHeading (pyStripWs line)) ∈
      processLines spaces pd ff ls := by
  induction ls generalizing ff with
  | nil => cases hmem
  | cons l ls ih =>
    rcases List.mem_cons.mp hmem with h | h
    · subst h
      simp only [processLines]
      refine List.mem_append_left _ ?_
      by_cases hff : ff <;> simp [processLine, hhead, hff]
    · exact List.mem_append_right _ (ih _ h)

theorem dropWhile_replicate_hash (n : Nat) (rest : List Char) :
    (List.replicate n '#' ++ rest).dropWhile (fun c => c = '#') =
      rest.dropWhile (fun c => c = '#') := by
  induction n with
  | zero => simp
  | succ n ih => simp [List.replicate_succ, List.dropWhile, ih]

theorem dropWhile_hash_eq_self (rest : List Char) (h : rest.head? ≠ some '#') :
    rest.dropWhile (fun c => c = '#') = rest := by
  cases rest with
  | nil => rfl
  | cons a t =>
    simp only [List.head?_cons, ne_eq, Option.some_inj] at h
    simp [List.dropWhile, h]

theorem headingLevel_eq (n : Nat) (rest : List Char) (h : rest.head? ≠ some '#') :
    headingLevel (List.replicate n '#' ++ rest) = n := by
  simp [headingLevel, dropWhile_replicate_hash, dropWhile_hash_eq_self rest h]

theorem newHeading_eq (n : Nat) (rest : List Char) (h : rest.head? ≠ some '#') :
    newHeading (List.replicate n '#' ++ rest) =
      List.replicate (n + 1) '#' ++ ' ' :: pyStripWs rest := by
  have hd : (List.replicate n '#' ++ rest).drop n = rest := by
    have h1 := List.drop_left (List.replicate n '#') rest
    rwa [List.length_replicate] at h1
  simp [newHeading, headingLevel_eq n rest h, hd]

theorem head_of_hash_run (n : Nat) (rest : List Char) (hn : 1 ≤ n) :
    (List.replicate n '#' ++ rest).head? = some '#' := by
  cases n with
  | zero => omega
  | succ n => simp [List.replicate_succ]

/-! ## Claims C2, C3, C10 -/

/-- C2: for every input line whose trimmed form starts with a run of
`n` `'#'` characters followed by text `T`, `add_heading_level_and_date`
(default indent 2) emits that line as 2 spaces, then `n + 1` `'#'`
characters, a single space, and `T` trimmed. -/
theorem claim_heading_shift (content pd line rest : List Char) (n : Nat)
    (hmem : line ∈ pySplit '\n' content)
    (hstrip : pyStripWs line = List.replicate n '#' ++ rest)
    (hn : 1 ≤ n) (hrest : rest.head? ≠ some '#') :
    add_heading_level_and_date content pd =
      pyJoin '\n' (processLines 2 pd false (pySplit '\n' content)) ∧
    (List.replicate 2 ' ' ++ List.replicate (n + 1) '#' ++ ' ' :: pyStripWs rest) ∈
      processLines 2 pd false (pySplit '\n' content) := by
  constructor
  · rfl
  · have hhead : (pyStripWs line).head? = some '#' := by
      rw [hstrip]; exact head_of_hash_run n rest hn
    have := mem_processLines_of_heading 2 pd (pySplit '\n' content) line false hmem hhead
    rw [hstrip, newHeading_eq n rest hrest] at this
    simpa [List.append_assoc] using this

theorem claim_heading_shift_witness :
    add_heading_level_and_date ("# Title\n### Sub".toList) ("x".toList) =
      pyJoin '\n' (processLines 2 ("x".toList) false (pySplit '\n' ("# Title\n### Sub".toList))) ∧
    (List.replicate 2 ' ' ++ List.replicate 2 '#' ++ ' ' :: pyStripWs (" Title".toList)) ∈
      processLines 2 ("x".toList) false (pySplit '\n' ("# Title\n### Sub".toList)) :=
  claim_heading_shift ("# Title\n### Sub".toList) ("x".toList) ("# Title".toList)
    (" Title".toList) 1 (by decide) (by decide) (by decide) (by decide)

theorem cm_processLines_true (spaces : Nat) (pd : List Char) (ls : List (List Char)) :
    cm_processLines spaces pd true ls = ls.map (lineAfterFirst spaces pd) := by
  induction ls with
  | nil => rfl
  | cons l ls ih =>
    simp only [cm_processLines, List.map_cons]
    by_cases h : (pyStripWs l).head? = some '#'
    · simp [cm_processLine, lineAfterFirst, h, ih]
    · by_cases h2 : pyStripWs l = []
      · simp [cm_processLine, lineAfterFirst, indentNonblank, h, h2, ih]
      · simp [cm_processLine, lineAfterFirst, indentNonblank, h, h2, ih]

theorem cm_processLines_noheading (spaces : Nat) (pd : List Char) (ls : List (List Char))
    (h : ∀ l ∈ ls, (pyStripWs l).head? ≠ some '#') :
    cm_processLines spaces pd false ls = ls.map (indentNonblank spaces) := by
  induction ls with
  | nil => rfl
  | cons l ls ih =>
    have hl := h l (List.mem_cons_self l ls)
    have hrest := fun x hx => h x (List.mem_cons_of_mem l hx)
    simp only [cm_processLines, List.map_cons]
    by_cases h2 : pyStripWs l = []
    · simp [cm_processLine, indentNonblank, hl, h2, ih hrest]
    · simp [cm_processLine, indentNonblank, hl, h2, ih hrest]

theorem cm_processLines_first_heading (spaces : Nat) (pd : List Char)
    (pre : List (List Char)) (hl : List Char) (post : List (List Char))
    (hpre : ∀ l ∈ pre, (pyStripWs l).head? ≠ some '#')
    (hhl : (pyStripWs hl).head? = some '#') :
    cm_processLines spaces pd false (pre ++ hl :: post) =
      pre.map (indentNonblank spaces) ++
        (List.replicate spaces ' ' ++ newHeading (pyStripWs hl)) ::
        [] :: cm_date_stamp_line pd spaces :: [] :: post.map (lineAfterFirst spaces pd) := by
  induction pre with
  | nil =>
    simp only [List.nil_append, List.map_nil, cm_processLines]
    simp [cm_processLine, hhl, cm_processLines_true]
  | cons p pre ih =>
    have hp := hpre p (List.mem_cons_self p pre)
    have hrest := fun x hx => hpre x (List.mem_cons_of_mem p hx)
    simp only [List.cons_append, cm_processLines, List.map_cons]
    by_cases h2 : pyStripWs p = []
    · simp [cm_processLine, indentNonblank, hp, h2, ih hrest]
    · simp [cm_processLine, indentNonblank, hp, h2, ih hrest]

/-- C3 counterexample: `combine_mdx.py`'s copy of the transform does not
insert a line carrying the calendar glyph — its stamp line starts with
the mojibake sequence, and no line of its output equals `main.py`'s
glyph-bearing stamp line. -/
theorem claim_date_stamp_once_counterexample :
    cm_add_heading_level_and_date ("# T".toList)
        ("Mon, 15 Jan 2024 10:00:00 GMT".toList) =
      ("  ## T\n\n  ğŸ—“ï¸ **January 15, 2024**\n".toList) ∧
    date_stamp_line ("Mon, 15 Jan 2024 10:00:00 GMT".toList) 2 ∉
      cm_processLines 2 ("Mon, 15 Jan 2024 10:00:00 GMT".toList) false
        (pySplit '\n' ("# T".toList)) := by
  refine ⟨by decide, by decide⟩

/-- C3 (amended): the date-stamp block — a blank line, an indented line
with the date in bold, prefixed by the calendar glyph in `main.py` and
by the mojibake sequence `ğŸ—“ï¸` in the encoding-corrupted
`combine_mdx.py` — is inserted exactly once, immediately after the first
heading line of the content and never after any later heading line; if
the content contains no heading line, no stamp is inserted and the
content is emitted with indentation only.  Both copies are covered. -/
theorem claim_date_stamp_once (content pd : List Char) :
    ((∀ l ∈ pySplit '\n' content, (pyStripWs l).head? ≠ some '#') →
      add_heading_level_and_date content pd =
        pyJoin '\n' ((pySplit '\n' content).map (indentNonblank 2))) ∧
    (∀ pre hl post, pySplit '\n' content = pre ++ hl :: post →
      (∀ l ∈ pre, (pyStripWs l).head? ≠ some '#') →
      (pyStripWs hl).head? = some '#' →
      add_heading_level_and_date content pd =
        pyJoin '\n' (pre.map (indentNonblank 2) ++
          (List.replicate 2 ' ' ++ newHeading (pyStripWs hl)) ::
          [] :: date_stamp_line pd 2 :: [] :: post.map (lineAfterFirst 2 pd))) ∧
    ((∀ l ∈ pySplit '\n' content, (pyStripWs l).head? ≠ some '#') →
      cm_add_heading_level_and_date content pd =
        pyJoin '\n' ((pySplit '\n' content).map (indentNonblank 2))) ∧
    (∀ pre hl post, pySplit '\n' content = pre ++ hl :: post →
      (∀ l ∈ pre, (pyStripWs l).head? ≠ some '#') →
      (pyStripWs hl).head? = some '#' →
      cm_add_heading_level_and_date content pd =
        pyJoin '\n' (pre.map (indentNonblank 2) ++
          (List.replicate 2 ' ' ++ newHeading (pyStripWs hl)) ::
          [] :: cm_date_stamp_line pd 2 :: [] :: post.map (lineAfterFirst 2 pd))) := by
  refine ⟨?_, ?_, ?_, ?_⟩
  · intro h
    unfold add_heading_level_and_date
    rw [processLines_noheading 2 pd _ h]
  · intro pre hl post hsplit hpre hhl
    unfold add_heading_level_and_date
    rw [hsplit, processLines_first_heading 2 pd pre hl post hpre hhl]
  · intro h
    unfold cm_add_heading_level_and_date
    rw [cm_processLines_noheading 2 pd _ h]
  · intro pre hl post hsplit hpre hhl
    unfold cm_add_heading_level_and_date
    rw [hsplit, cm_processLines_first_heading 2 pd pre hl post hpre hhl]

theorem claim_date_stamp_once_witness :
    (add_heading_level_and_date ("intro\n# Head\n## Sub\nbody".toList) ("x".toList) =
      pyJoin '\n' ([("intro".toList)].map (indentNonblank 2) ++
        (List.replicate 2 ' ' ++ newHeading (pyStripWs ("# Head".toList))) ::
        [] :: date_stamp_line ("x".toList) 2 ::
        [] :: [("## Sub".toList), ("body".toList)].map (lineAfterFirst 2 ("x".toList)))) ∧
    (add_heading_level_and_date ("plain\n\ntext".toList) ("x".toList) =
      pyJoin '\n' ((pySplit '\n' ("plain\n\ntext".toList)).map (indentNonblank 2))) ∧
    (cm_add_heading_level_and_date ("intro\n# Head\n## Sub\nbody".toList) ("x".toList) =
      pyJoin '\n' ([("intro".toList)].map (indentNonblank 2) ++
        (List.replicate 2 ' ' ++ newHeading (pyStripWs ("# Head".toList))) ::
        [] :: cm_date_stamp_line ("x".toList) 2 ::
        [] :: [("## Sub".toList), ("body".toList)].map (lineAfterFirst 2 ("x".toList)))) ∧
    (cm_add_heading_level_and_date ("plain\n\ntext".toList) ("x".toList) =
      pyJoin '\n' ((pySplit '\n' ("plain\n\ntext".toList)).map (indentNonblank 2))) :=
  ⟨(claim_date_stamp_once ("intro\n# Head\n## Sub\nbody".toList) ("x".toList)).2.1
      [("intro".toList)] ("# Head".toList) [("## Sub".toList), ("body".toList)]
      (by decide) (by decide) (by decide),
   (claim_date_stamp_once ("plain\n\ntext".toList) ("x".toList)).1 (by decide),
   (claim_date_stamp_once ("intro\n# Head\n## Sub\nbody".toList) ("x".toList)).2.2.2
      [("intro".toList)] ("# Head".toList) [("## Sub".toList), ("body".toList)]
      (by decide) (by decide) (by decide),
   (claim_date_stamp_once ("plain\n\ntext".toList) ("x".toList)).2.2.1 (by decide)⟩

/-- C10: heading detection is context-free — any line whose trimmed form
begins with `'#'` is processed as a heading no matter where it occurs, so
a `#` comment inside a fenced code block gets an extra `#` and (as first
heading) triggers the date-stamp insertion, and `"#Title"` (no space) is
re-emitted with exactly one space after the `#` run. -/
theorem claim_context_free_headings :
    (∀ (ff : Bool) (pd l : List Char), (pyStripWs l).head? = some '#' →
      (processLine 2 pd ff l).1.head? =
        some (List.replicate 2 ' ' ++ newHeading (pyStripWs l))) ∧
    add_heading_level_and_date ("```\n# comment\n```".toList)
        ("Mon, 15 Jan 2024 10:00:00 GMT".toList) =
      ("  ```\n  ## comment\n\n  🗓️ **January 15, 2024**\n\n  ```".toList) ∧
    add_heading_level_and_date ("#Title".toList)
        ("Mon, 15 Jan 2024 10:00:00 GMT".toList) =
      ("  ## Title\n\n  🗓️ **January 15, 2024**\n".toList) := by
  refine ⟨?_, by decide, by decide⟩
  intro ff pd l h
  by_cases hff : ff <;> simp [processLine, h, hff]

theorem claim_context_free_headings_witness :
    (processLine 2 ("x".toList) false ("  # in-code comment".toList)).1.head? =
      some (List.replicate 2 ' ' ++ newHeading (pyStripWs ("  # in-code comment".toList))) :=
  claim_context_free_headings.1 false ("x".toList) ("  # in-code comment".toList) (by decide)

/-! ## Lemmas: slug normalisation -/

theorem collapseDash_subset (l : List Char) : collapseDash l ⊆ l := by
  induction l with
  | nil => simp [collapseDash]
  | cons a t ih =>
    cases t with
    | nil => simp [collapseDash]
    | cons b r =>
      simp only [collapseDash]
      split
      · exact fun c hc => List.mem_cons_of_mem a (ih hc)
      · intro c hc
        rcases List.mem_cons.mp hc with h | h
        · exact h ▸ List.mem_cons_self a _
        · exact List.mem_cons_of_mem a (ih h)

theorem head?_collapseDash (b : Char) (r : List Char) :
    (collapseDash (b :: r)).head? = some b := by
  induction r generalizing b with
  | nil => simp [collapseDash]
  | cons c r' ih =>
    simp only [collapseDash]
    split
    · rename_i h
      rw [ih c, h.1, h.2]
    · simp

theorem chain'_collapseDash (l : List Char) :
    List.Chain' (fun a b => ¬(a = '-' ∧ b = '-')) (collapseDash l) := by
  induction l with
  | nil => simp [collapseDash]
  | cons a t ih =>
    cases t with
    | nil => simp [collapseDash]
    | cons b r =>
      simp only [collapseDash]
      split
      · exact ih
      · rename_i h
        rw [List.chain'_cons']
        refine ⟨?_, ih⟩
        intro y hy
        rw [head?_collapseDash b r] at hy
        cases hy
        exact h

theorem head?_dropWhile_false (p : Char → Bool) (l : List Char) (a : Char)
    (h : (l.dropWhile p).head? = some a) : p a = false := by
  induction l with
  | nil => simp [List.dropWhile] at h
  | cons x t ih =>
    rw [List.dropWhile_cons] at h
    split at h
    · exact ih h
    · rename_i hx
      simp only [List.head?_cons, Option.some_inj] at h
      subst h
      exact Bool.not_eq_true _ ▸ eq_false_of_ne_true hx

theorem subNonWord_ok (d : Char) :
    isPyWordChar (subNonWord d) = true ∨ subNonWord d = '-' := by
  unfold subNonWord
  split
  · rename_i h
    rcases Bool.or_eq_true _ _ |>.mp h with h1 | h1
    · exact Or.inl h1
    · exact Or.inr (by simpa using h1)
  · exact Or.inr rfl

/-- Well-formedness of a slug: only word characters or `-`, no leading or
trailing `-`, no two consecutive `-`. -/
def slugWellFormed (s : List Char) : Prop :=
  (∀ c ∈ s, isPyWordChar c = true ∨ c = '-') ∧
  s.head? ≠ some '-' ∧ s.getLast? ≠ some '-' ∧
  List.Chain' (fun a b => ¬(a = '-' ∧ b = '-')) s

theorem normalizeSlug_ok (s : List Char) : slugWellFormed (normalizeSlug s) := by
  have hres : normalizeSlug s =
      (((collapseDash (s.map subNonWord)).dropWhile (fun x => x = '-')).reverse.dropWhile
        (fun x => x = '-')).reverse := rfl
  set p : Char → Bool := fun x => x = '-' with hp
  set N := collapseDash (s.map subNonWord) with hN
  set A := N.dropWhile p with hA
  set B := A.reverse.dropWhile p with hB
  have hsubA : A <:+ N := List.dropWhile_suffix p
  have hsubB : B <:+ A.reverse := List.dropWhile_suffix p
  obtain ⟨t, ht⟩ := hsubB
  have hA_eq : A = B.reverse ++ t.reverse := by
    have h1 := congrArg List.reverse ht
    rw [List.reverse_append, List.reverse_reverse] at h1
    exact h1.symm
  have hmemB : ∀ c ∈ B, c ∈ N := by
    intro c hc
    have h1 : c ∈ A.reverse := ht ▸ List.mem_append_right t hc
    exact hsubA.sublist.subset (List.mem_reverse.mp h1)
  refine ⟨?_, ?_, ?_, ?_⟩
  · intro c hc
    rw [hres] at hc
    have h1 : c ∈ N := hmemB c (List.mem_reverse.mp hc)
    have h2 : c ∈ s.map subNonWord := collapseDash_subset _ h1
    obtain ⟨d, _, hd⟩ := List.mem_map.mp h2
    exact hd ▸ subNonWord_ok d
  · rw [hres]
    cases hBr : B.reverse with
    | nil => simp
    | cons x xs =>
      have hxA : A.head? = some x := by rw [hA_eq, hBr]; rfl
      have := head?_dropWhile_false p N x hxA
      simp only [List.head?_cons, ne_eq, Option.some_inj]
      intro hx
      rw [hx] at this
      simp [hp] at this
  · rw [hres, List.getLast?_reverse]
    cases hB' : B.head? with
    | none => simp
    | some a =>
      have h2 := head?_dropWhile_false p A.reverse a hB'
      intro hcontra
      cases hcontra
      simp [hp] at h2
  · have hsymm : ∀ a b : Char, ¬(a = '-' ∧ b = '-') → ¬(b = '-' ∧ a = '-') := by tauto
    have c1 : List.Chain' (fun a b => ¬(a = '-' ∧ b = '-')) A :=
      (chain'_collapseDash _).suffix hsubA
    have c2 : List.Chain' (fun a b => ¬(a = '-' ∧ b = '-')) A.reverse :=
      List.chain'_reverse.mpr (c1.imp fun a b hab => hsymm a b hab)
    have c3 : List.Chain' (fun a b => ¬(a = '-' ∧ b = '-')) B :=
      c2.suffix ⟨t, ht⟩
    rw [hres]
    exact List.chain'_reverse.mpr (c3.imp fun a b hab => hsymm a b hab)

/-! ## Claim C4 (corrected) -/

/-- C4 counterexample: Python's `\w` is Unicode-aware, so the slug of
`https://example.com/café` keeps `é`, which is outside `[A-Za-z0-9_-]`. -/
theorem claim_slug_charset_counterexample :
    ¬(∀ c ∈ slug_from_link ("https://example.com/café".toList),
        c = '-' ∨ c = '_' ∨ ('A' ≤ c ∧ c ≤ 'Z') ∨ ('a' ≤ c ∧ c ≤ 'z') ∨
        ('0' ≤ c ∧ c ≤ '9')) := by
  decide

/-- C4 (amended): for every URL, the derived slug (either derivation)
contains only `-` and characters matching Python's Unicode-aware `\w`,
with no leading `-`, no trailing `-`, and no two consecutive `-`. -/
theorem claim_slug_charset (link : List Char) :
    slugWellFormed (slug_from_link link) ∧
    slugWellFormed (extract_slug_from_url link) := by
  constructor
  · unfold slug_from_link
    cases h : pySplit '/' (pyStripChar '/' link) with
    | nil => exact absurd h (pySplit_ne_nil _ _)
    | cons a t => simp only [h]; exact normalizeSlug_ok _
  · unfold extract_slug_from_url
    cases h : pySplit '/' (pyStripChar '/' (pathOf link)) with
    | nil => exact absurd h (pySplit_ne_nil _ _)
    | cons a t => simp only [h]; exact normalizeSlug_ok _

theorem claim_slug_charset_witness :
    slugWellFormed (slug_from_link ("https://example.com/changelog/v1.2.0 (beta)!".toList)) ∧
    slugWellFormed (extract_slug_from_url ("https://example.com/changelog/v1.2.0 (beta)!".toList)) :=
  claim_slug_charset ("https://example.com/changelog/v1.2.0 (beta)!".toList)

/-! ## Claim C9 (corrected): slug fallbacks -/

/-- C9 counterexample: with an empty URL path the fetcher returns the
empty string (not `"unknown-changelog"`), because `"".split("/")` is
`[""]`, and the reader in `main.py` splits the whole URL, yielding a
host-derived slug (not `"unknown"`). -/
theorem claim_slug_fallback_counterexample :
    extract_slug_from_url ("https://example.com".toList) = [] ∧
    ([] : List Char) ≠ ("unknown-changelog".toList) ∧
    slug_from_link ("https://example.com".toList) = ("example-com".toList) ∧
    ("example-com".toList) ≠ ("unknown".toList) := by
  refine ⟨by decide, by decide, by decide, by decide⟩

/-- C9 (amended): the fallback constants are unreachable — splitting
always yields at least one piece; for a URL whose path is empty the
fetcher's slug is the empty string, and the reader never inspects the
path at all (it splits the whole URL). -/
theorem claim_slug_fallback (url : List Char) :
    (pyStripChar '/' (pathOf url) = [] → extract_slug_from_url url = []) ∧
    pySplit '/' (pyStripChar '/' (pathOf url)) ≠ [] ∧
    pySplit '/' (pyStripChar '/' url) ≠ [] := by
  refine ⟨?_, pySplit_ne_nil _ _, pySplit_ne_nil _ _⟩
  intro h
  unfold extract_slug_from_url
  rw [h]
  rfl

theorem claim_slug_fallback_witness :
    (pyStripChar '/' (pathOf ("https://example.com/".toList)) = [] →
      extract_slug_from_url ("https://example.com/".toList) = []) ∧
    pySplit '/' (pyStripChar '/' (pathOf ("https://example.com/".toList))) ≠ [] ∧
    pySplit '/' (pyStripChar '/' ("https://example.com/".toList)) ≠ [] :=
  claim_slug_fallback ("https://example.com/".toList)

/-! ## Claim C5 (corrected): per-item fetch failures -/

/-- C5 counterexample: in `main.py` a failing GET on the first item
aborts `fetch_all_markdown` before any remaining item is processed, even
though the second item alone would succeed. -/
theorem claim_fetch_isolation_counterexample :
    fetch_all_markdown
        (fun u => if u = ("https://e.com/a.md".toList) then none else some ("body".toList))
        [⟨("https://e.com/a".toList), ("a".toList), ("d".toList)⟩,
         ⟨("https://e.com/b".toList), ("b".toList), ("d".toList)⟩] =
      .aborted [] ∧
    fetch_all_markdown
        (fun u => if u = ("https://e.com/a.md".toList) then none else some ("body".toList))
        [⟨("https://e.com/b".toList), ("b".toList), ("d".toList)⟩] =
      .completed [(("b.mdx".toList), ("body".toList))] 1 := by
  refine ⟨by decide, by decide⟩

/-- C5 (amended): the standalone fetcher (`fetch_mdx.py`) records every
item as a success or a failure and never aborts (successes + failures =
number of items), while in `main.py` a non-2xx response or network error
raises out of `fetch_all_markdown`, aborting the fetch stage at once. -/
theorem claim_fetch_isolation :
    (∀ (http : List Char → Option (List Char)) (it : RssItem) (rest : List RssItem),
      http (it.link ++ (".md".toList)) = none →
      fetch_all_markdown http (it :: rest) = .aborted []) ∧
    (∀ (http : List Char → Option (List Char)) (items : List RssItem),
      (fetch_mdx_run http items).2.1 + (fetch_mdx_run http items).2.2 = items.length) := by
  constructor
  · intro http it rest h
    have h' : http (it.link ++ ['.', 'm', 'd']) = none := h
    simp [fetch_all_markdown, h']
  · intro http items
    induction items with
    | nil => rfl
    | cons it rest ih =>
      simp only [fetch_mdx_run]
      cases h : http (it.link ++ (".md".toList)) with
      | none => simpa using by omega
      | some c =>
        by_cases hc : c = [] <;> simp [hc] <;> omega

theorem claim_fetch_isolation_witness :
    fetch_all_markdown (fun _ => none)
        [⟨("https://e.com/a".toList), ("a".toList), ("d".toList)⟩] = .aborted [] ∧
    (fetch_mdx_run (fun _ => none)
        [⟨("https://e.com/a".toList), ("a".toList), ("d".toList)⟩]).2.1 +
      (fetch_mdx_run (fun _ => none)
        [⟨("https://e.com/a".toList), ("a".toList), ("d".toList)⟩]).2.2 = 1 :=
  ⟨claim_fetch_isolation.1 (fun _ => none)
      ⟨("https://e.com/a".toList), ("a".toList), ("d".toList)⟩ [] rfl,
   claim_fetch_isolation.2 (fun _ => none)
      [⟨("https://e.com/a".toList), ("a".toList), ("d".toList)⟩]⟩

/-! ## Claim C8 (corrected): verbatim writes on 2xx -/

/-- C8 counterexample: a 2xx response with an empty body is falsy in
Python, so the item is counted as a failure and nothing is written —
contradicting the claim for empty `B`. -/
theorem claim_fetch_verbatim_counterexample :
    fetch_mdx_run (fun _ => some [])
        [⟨("https://e.com/a".toList), ("a".toList), ("d".toList)⟩] = ([], 0, 1) := by
  decide

/-- C8 (amended): a 2xx response with a non-empty body `B` is written
verbatim (no rewriting) to `<slug>.mdx` and counted as a success; a 2xx
response with an empty body is treated like a failure — nothing is
written and the failure count is incremented. -/
theorem claim_fetch_verbatim (http : List Char → Option (List Char))
    (it : RssItem) (rest : List RssItem) (B : List Char)
    (h : http (it.link ++ (".md".toList)) = some B) :
    (B ≠ [] → fetch_mdx_run http (it :: rest) =
      ((extract_slug_from_url it.link ++ (".mdx".toList), B) :: (fetch_mdx_run http rest).1,
        (fetch_mdx_run http rest).2.1 + 1, (fetch_mdx_run http rest).2.2)) ∧
    (B = [] → fetch_mdx_run http (it :: rest) =
      ((fetch_mdx_run http rest).1, (fetch_mdx_run http rest).2.1,
        (fetch_mdx_run http rest).2.2 + 1)) := by
  have h' : http (it.link ++ ['.', 'm', 'd']) = some B := h
  constructor <;> intro hB <;> simp [fetch_mdx_run, h', hB, convert_to_mdx]

theorem claim_fetch_verbatim_witness :
    fetch_mdx_run (fun _ => some ("hello".toList))
        [⟨("https://e.com/a".toList), ("a".toList), ("d".toList)⟩] =
      ((extract_slug_from_url ("https://e.com/a".toList) ++ (".mdx".toList),
        ("hello".toList)) ::
          (fetch_mdx_run (fun _ => some ("hello".toList)) []).1,
        (fetch_mdx_run (fun _ => some ("hello".toList)) []).2.1 + 1,
        (fetch_mdx_run (fun _ => some ("hello".toList)) []).2.2) :=
  (claim_fetch_verbatim (fun _ => some ("hello".toList))
      ⟨("https://e.com/a".toList), ("a".toList), ("d".toList)⟩ [] ("hello".toList) rfl).1
    (by decide)

/-! ## Claim C7 (corrected): combine with no readable files -/

/-- C7 counterexample: with one feed item whose date parses and no
readable file, the standalone combiner's output is not just the
frontmatter — it contains an empty `<Update>` wrapper — and `main.py`'s
combine does not complete at all (the unhandled read error aborts it). -/
theorem claim_combine_empty_counterexample :
    consolidate_changelog
        [⟨("https://e.com/a".toList), ("a".toList), ("Mon, 15 Jan 2024 10:00:00 GMT".toList)⟩]
        (fun _ => none) ≠ frontmatter ∧
    consolidate_changelog
        [⟨("https://e.com/a".toList), ("a".toList), ("Mon, 15 Jan 2024 10:00:00 GMT".toList)⟩]
        (fun _ => none) =
      frontmatter ++ updateOpen (("January 2024".toList)) ++ updateClose ∧
    main_combine_changelog
        [⟨("https://e.com/a".toList), ("a".toList), ("Mon, 15 Jan 2024 10:00:00 GMT".toList)⟩]
        (fun _ => none) = none := by
  refine ⟨by decide, by decide, by decide⟩

theorem renderGroups_inner_no_reads
    (readMdx : List Char → Option (List Char)) (hr : ∀ s, readMdx s = none)
    (l : List (RssItem × Option PyDateTime)) (acc : List Char) :
    l.foldl (fun a x =>
      match readMdx x.1.slug with
      | none => a
      | some c =>
        if c = [] then a
        else a ++ cm_add_heading_level_and_date c x.1.pubDate ++ ("\n\n".toList)) acc = acc := by
  induction l generalizing acc with
  | nil => rfl
  | cons x l ih =>
    simp only [List.foldl_cons, hr x.1.slug]
    exact ih acc

/-- The document produced when every per-item read fails: the wrapper
markers of each non-`unknown` month group, with no item content. -/
def emptyWrappersFrom (groups : List (List Char × List (RssItem × Option PyDateTime)))
    (acc0 : List Char) : List Char :=
  groups.foldl (fun acc g =>
    if g.1 = unknownKey then acc
    else
      match g.2 with
      | [] => acc
      | first :: _ =>
        acc ++ updateOpen (format_date_for_label first.1.pubDate) ++ updateClose) acc0

theorem renderGroupsFrom_no_reads
    (readMdx : List Char → Option (List Char)) (hr : ∀ s, readMdx s = none)
    (groups : List (List Char × List (RssItem × Option PyDateTime))) (acc0 : List Char) :
    renderGroupsFrom groups readMdx acc0 = emptyWrappersFrom groups acc0 := by
  induction groups generalizing acc0 with
  | nil => rfl
  | cons g gs ih =>
    unfold renderGroupsFrom emptyWrappersFrom
    simp only [List.foldl_cons]
    by_cases hu : g.1 = unknownKey
    · simp only [if_pos hu]
      exact ih acc0
    · simp only [if_neg hu]
      cases hg : g.2 with
      | nil => exact ih acc0
      | cons first rest =>
        simp only
        rw [renderGroups_inner_no_reads readMdx hr]
        exact ih _

/-! ## Lemmas: bounds of parsed dates -/

theorem digitVal_le_9 (c : Char) (h : isDigitC c = true) : digitVal c ≤ 9 := by
  simp only [isDigitC, Bool.and_eq_true, decide_eq_true_eq] at h
  unfold digitVal
  omega

theorem readDay_bounds (s : List Char) (p : Nat × List Char)
    (h : readDay s = some p) : 1 ≤ p.1 ∧ p.1 ≤ 31 := by
  cases s with
  | nil => simp [readDay] at h
  | cons a t =>
    cases t with
    | nil =>
      simp only [readDay] at h
      split_ifs at h with h1
      · simp only [Option.some_inj] at h
        subst h
        exact ⟨h1.2, le_trans (digitVal_le_9 a h1.1) (by omega)⟩
    | cons b r =>
      simp only [readDay] at h
      split_ifs at h with h1 h2 h3
      · simp only [Option.some_inj] at h
        subst h
        exact ⟨h2.1, h2.2⟩
      · simp only [Option.some_inj] at h
        subst h
        exact ⟨h3.2, le_trans (digitVal_le_9 a h3.1) (by omega)⟩

theorem tryMonths_bounds : ∀ (i : Nat) (ms : List (List Char)) (s : List Char)
    (p : Nat × List Char), tryMonths i ms s = some p → i ≤ p.1 ∧ p.1 < i + ms.length
  | i, [], s, p, h => by simp [tryMonths] at h
  | i, w :: ws, s, p, h => by
    simp only [tryMonths] at h
    cases hw : stripLit w s with
    | some r =>
      rw [hw] at h
      simp only [Option.some_inj] at h
      subst h
      simp
    | none =>
      rw [hw] at h
      have := tryMonths_bounds (i + 1) ws s p h
      constructor
      · omega
      · simp only [List.length_cons]
        omega

theorem readMonthAbbr_bounds (s : List Char) (p : Nat × List Char)
    (h : readMonthAbbr s = some p) : 1 ≤ p.1 ∧ p.1 ≤ 12 := by
  have h1 := tryMonths_bounds 1 monthAbbrs s p h
  have h2 : monthAbbrs.length = 12 := by decide
  omega

theorem read4Digits_le (s : List Char) (p : Nat × List Char)
    (h : read4Digits s = some p) : p.1 ≤ 9999 := by
  match s with
  | [] => simp [read4Digits] at h
  | [a] => simp [read4Digits] at h
  | [a, b] => simp [read4Digits] at h
  | [a, b, c] => simp [read4Digits] at h
  | a :: b :: c :: d :: rest =>
    simp only [read4Digits] at h
    split_ifs at h with h1
    simp only [Option.some_inj] at h
    subst h
    have ha := digitVal_le_9 a h1.1
    have hb := digitVal_le_9 b h1.2.1
    have hc := digitVal_le_9 c h1.2.2.1
    have hd := digitVal_le_9 d h1.2.2.2
    simp only
    omega

theorem read2Or1_le (bound : Nat) (s : List Char) (p : Nat × List Char)
    (hb : 9 ≤ bound) (h : read2Or1 bound s = some p) : p.1 ≤ bound := by
  cases s with
  | nil => simp [read2Or1] at h
  | cons a t =>
    cases t with
    | nil =>
      simp only [read2Or1] at h
      split_ifs at h with h1
      simp only [Option.some_inj] at h
      subst h
      exact le_trans (digitVal_le_9 a h1) hb
    | cons b r =>
      simp only [read2Or1] at h
      split_ifs at h with h1 h2
      · simp only [Option.some_inj] at h
        subst h
        exact h1.2.2
      · simp only [Option.some_inj] at h
        subst h
        exact le_trans (digitVal_le_9 a h2) hb

theorem parseDatePart_bounds (s : List Char) (p : Nat × Nat × Nat × List Char)
    (h : parseDatePart s = some p) :
    1 ≤ p.1 ∧ p.1 ≤ 31 ∧ 1 ≤ p.2.1 ∧ p.2.1 ≤ 12 ∧ p.2.2.1 ≤ 9999 := by
  simp only [parseDatePart, Option.bind_eq_some] at h
  obtain ⟨s1, _, s2, _, ds, hds, s4, _, ms, hms, s6, _, ys, hys, hfin⟩ := h
  simp only [Option.some_inj] at hfin
  subst hfin
  have h1 := readDay_bounds s2 ds hds
  have h2 := readMonthAbbr_bounds s4 ms hms
  have h3 := read4Digits_le s6 ys hys
  exact ⟨h1.1, h1.2, h2.1, h2.2, h3⟩

theorem parseTimePart_bounds (s : List Char) (p : Nat × Nat × Nat × List Char)
    (h : parseTimePart s = some p) : p.1 ≤ 23 ∧ p.2.1 ≤ 59 ∧ p.2.2.1 ≤ 59 := by
  simp only [parseTimePart, Option.bind_eq_some] at h
  obtain ⟨hs, hhs, s10, _, mins, hmins, s12, _, secs, hsecs, hfin⟩ := h
  simp only [Option.some_inj] at hfin
  subst hfin
  exact ⟨read2Or1_le 23 s hs (by omega) hhs,
    read2Or1_le 59 s10 mins (by omega) hmins,
    read2Or1_le 59 s12 secs (by omega) hsecs⟩

/-- The field ranges enforced by the `datetime` constructor (plus the
four-digit year of `%Y`). -/
def dtBounds (dt : PyDateTime) : Prop :=
  1 ≤ dt.year ∧ dt.year ≤ 9999 ∧ 1 ≤ dt.month ∧ dt.month ≤ 12 ∧
  1 ≤ dt.day ∧ dt.day ≤ 31 ∧ dt.hour ≤ 23 ∧ dt.minute ≤ 59 ∧ dt.second ≤ 59

theorem parsePubDate_bounds (s : List Char) (dt : PyDateTime)
    (h : parsePubDate s = some dt) : dtBounds dt := by
  simp only [parsePubDate, Option.bind_eq_some] at h
  obtain ⟨dmy, hdmy, s8, _, hms, hhms, s14, _, s15, _, hfin⟩ := h
  split_ifs at hfin with hc
  simp only [Option.some_inj] at hfin
  subst hfin
  have h1 := parseDatePart_bounds s dmy hdmy
  have h2 := parseTimePart_bounds s8 hms hhms
  exact ⟨hc.2.1, h1.2.2.2.2, h1.2.2.1, h1.2.2.2.1, h1.1, h1.2.1,
    h2.1, h2.2.1, h2.2.2⟩

/-! ## Lemmas: the `"%Y-%m"` keys order like (year, month) -/

theorem mod10_lt (n : Nat) : n % 10 < 10 := Nat.mod_lt n (by omega)

theorem digitChar_lt_iff (a b : Nat) (ha : a < 10) (hb : b < 10) :
    digitChar a < digitChar b ↔ a < b := by
  interval_cases a <;> interval_cases b <;> decide

theorem digitChar_ne_u (a : Nat) (ha : a < 10) : digitChar a ≠ 'u' := by
  interval_cases a <;> decide

theorem strLe_cons_same (c : Char) (t1 t2 : List Char) :
    strLe (c :: t1) (c :: t2) = strLe t1 t2 := by
  simp [strLe]

theorem strLe_digit_cons (a b : Nat) (t1 t2 : List Char) (ha : a < 10) (hb : b < 10) :
    (strLe (digitChar a :: t1) (digitChar b :: t2) = true) ↔
      (a < b ∨ (a = b ∧ strLe t1 t2 = true)) := by
  simp only [strLe]
  by_cases h1 : digitChar a < digitChar b
  · simp [h1, (digitChar_lt_iff a b ha hb).mp h1]
  · by_cases h2 : digitChar b < digitChar a
    · have hba := (digitChar_lt_iff b a hb ha).mp h2
      simp only [h1, if_neg h1, h2, if_pos h2]
      constructor
      · intro hf; cases hf
      · rintro (hlt | ⟨heq, _⟩) <;> omega
    · have hab : a = b := by
        have h3 : ¬a < b := fun hcon => h1 ((digitChar_lt_iff a b ha hb).mpr hcon)
        have h4 : ¬b < a := fun hcon => h2 ((digitChar_lt_iff b a hb ha).mpr hcon)
        omega
      subst hab
      simp [h1, h2]

theorem digits4_decomp (y : Nat) (h : y < 10000) :
    y = 1000 * (y / 1000 % 10) + 100 * (y / 100 % 10) + 10 * (y / 10 % 10) + y % 10 := by
  omega

theorem digits2_decomp (m : Nat) (h : m < 100) :
    m = 10 * (m / 10 % 10) + m % 10 := by
  omega

theorem strLe_pad4_iff (y1 y2 : Nat) (r1 r2 : List Char)
    (h1 : y1 < 10000) (h2 : y2 < 10000) :
    (strLe (pad4 y1 ++ r1) (pad4 y2 ++ r2) = true) ↔
      (y1 < y2 ∨ (y1 = y2 ∧ strLe r1 r2 = true)) := by
  simp only [pad4, List.cons_append, List.nil_append]
  rw [strLe_digit_cons _ _ _ _ (mod10_lt _) (mod10_lt _),
    strLe_digit_cons _ _ _ _ (mod10_lt _) (mod10_lt _),
    strLe_digit_cons _ _ _ _ (mod10_lt _) (mod10_lt _),
    strLe_digit_cons _ _ _ _ (mod10_lt _) (mod10_lt _)]
  have hy1 := digits4_decomp y1 h1
  have hy2 := digits4_decomp y2 h2
  have ha1 := mod10_lt (y1 / 1000)
  have ha2 := mod10_lt (y1 / 100)
  have ha3 := mod10_lt (y1 / 10)
  have ha4 := mod10_lt y1
  have hb1 := mod10_lt (y2 / 1000)
  have hb2 := mod10_lt (y2 / 100)
  have hb3 := mod10_lt (y2 / 10)
  have hb4 := mod10_lt y2
  generalize y1 / 1000 % 10 = a1 at hy1 ha1 ⊢
  generalize y1 / 100 % 10 = a2 at hy1 ha2 ⊢
  generalize y1 / 10 % 10 = a3 at hy1 ha3 ⊢
  generalize y1 % 10 = a4 at hy1 ha4 ⊢
  generalize y2 / 1000 % 10 = b1 at hy2 hb1 ⊢
  generalize y2 / 100 % 10 = b2 at hy2 hb2 ⊢
  generalize y2 / 10 % 10 = b3 at hy2 hb3 ⊢
  generalize y2 % 10 = b4 at hy2 hb4 ⊢
  by_cases hP : strLe r1 r2 = true <;> simp [hP] <;> omega

theorem strLe_pad2_iff (m1 m2 : Nat) (r1 r2 : List Char)
    (h1 : m1 < 100) (h2 : m2 < 100) :
    (strLe (pad2 m1 ++ r1) (pad2 m2 ++ r2) = true) ↔
      (m1 < m2 ∨ (m1 = m2 ∧ strLe r1 r2 = true)) := by
  simp only [pad2, List.cons_append, List.nil_append]
  rw [strLe_digit_cons _ _ _ _ (mod10_lt _) (mod10_lt _),
    strLe_digit_cons _ _ _ _ (mod10_lt _) (mod10_lt _)]
  have hy1 := digits2_decomp m1 h1
  have hy2 := digits2_decomp m2 h2
  have ha1 := mod10_lt (m1 / 10)
  have ha2 := mod10_lt m1
  have hb1 := mod10_lt (m2 / 10)
  have hb2 := mod10_lt m2
  generalize m1 / 10 % 10 = a1 at hy1 ha1 ⊢
  generalize m1 % 10 = a2 at hy1 ha2 ⊢
  generalize m2 / 10 % 10 = b1 at hy2 hb1 ⊢
  generalize m2 % 10 = b2 at hy2 hb2 ⊢
  by_cases hP : strLe r1 r2 = true <;> simp [hP] <;> omega

theorem formatYM_le_iff (dt1 dt2 : PyDateTime)
    (b1 : dtBounds dt1) (b2 : dtBounds dt2) :
    (strLe (formatYM dt1) (formatYM dt2) = true) ↔
      (dt1.year < dt2.year ∨ (dt1.year = dt2.year ∧ dt1.month ≤ dt2.month)) := by
  unfold dtBounds at b1 b2
  have e1 : formatYM dt1 = pad4 dt1.year ++ ('-' :: (pad2 dt1.month ++ [])) := by
    simp [formatYM]
  have e2 : formatYM dt2 = pad4 dt2.year ++ ('-' :: (pad2 dt2.month ++ [])) := by
    simp [formatYM]
  rw [e1, e2, strLe_pad4_iff _ _ _ _ (by omega) (by omega), strLe_cons_same,
    strLe_pad2_iff _ _ _ _ (by omega) (by omega)]
  have : strLe [] [] = true := rfl
  simp only [this, and_true]
  constructor
  · rintro (h | ⟨he, h⟩)
    · exact Or.inl h
    · rcases h with h | h
      · exact Or.inr ⟨he, le_of_lt h⟩
      · exact Or.inr ⟨he, le_of_eq h⟩
  · rintro (h | ⟨he, h⟩)
    · exact Or.inl h
    · rcases lt_or_eq_of_le h with h' | h'
      · exact Or.inr ⟨he, Or.inl h'⟩
      · exact Or.inr ⟨he, Or.inr h'⟩

theorem formatYM_ne_unknown (dt : PyDateTime) : formatYM dt ≠ unknownKey := by
  intro h
  have h1 : (formatYM dt).head? = some (digitChar (dt.year / 1000 % 10)) := rfl
  rw [h] at h1
  have h2 : unknownKey.head? = some 'u' := rfl
  rw [h2] at h1
  exact digitChar_ne_u _ (mod10_lt _) (Option.some_inj.mp h1).symm

theorem formatYM_congr (dt1 dt2 : PyDateTime)
    (hy : dt1.year = dt2.year) (hm : dt1.month = dt2.month) :
    formatYM dt1 = formatYM dt2 := by
  simp [formatYM, hy, hm]

/-! ## Lemmas: totality and transitivity of the sort orders -/

theorem strLe_total : ∀ (a b : List Char), strLe a b = true ∨ strLe b a = true
  | [], _ => Or.inl rfl
  | _ :: _, [] => Or.inr rfl
  | x :: xs, y :: ys => by
    simp only [strLe]
    rcases lt_trichotomy x y with h | h | h
    · left; simp [h]
    · subst h
      simp only [lt_self_iff_false, if_false]
      exact strLe_total xs ys
    · right; simp [h]

theorem strLe_trans : ∀ (a b c : List Char),
    strLe a b = true → strLe b c = true → strLe a c = true
  | [], _, _, _, _ => rfl
  | _ :: _, [], _, h1, _ => by simp [strLe] at h1
  | _ :: _, _ :: _, [], _, h2 => by simp [strLe] at h2
  | x :: xs, y :: ys, z :: zs, h1, h2 => by
    simp only [strLe] at h1 h2 ⊢
    by_cases hxy : x < y
    · by_cases hyz : y < z
      · simp [lt_trans hxy hyz]
      · by_cases hzy : z < y
        · simp [hyz, hzy] at h2
        · have hyz' : y = z := le_antisymm (not_lt.mp hzy) (not_lt.mp hyz)
          subst hyz'
          simp [hxy]
    · by_cases hyx : y < x
      · simp [hxy, hyx] at h1
      · have hxy' : x = y := le_antisymm (not_lt.mp hyx) (not_lt.mp hxy)
        subst hxy'
        by_cases hxz : x < z
        · simp [hxz]
        · by_cases hzx : z < x
          · simp [hxz, hzx] at h2
          · have hxz' : x = z := le_antisymm (not_lt.mp hzx) (not_lt.mp hxz)
            subst hxz'
            simp only [lt_self_iff_false, if_false] at h1 h2 ⊢
            exact strLe_trans xs ys zs h1 h2

instance : IsTotal (List Char × List (RssItem × Option PyDateTime)) groupRel :=
  ⟨fun a b => strLe_total b.1 a.1⟩

instance : IsTrans (List Char × List (RssItem × Option PyDateTime)) groupRel :=
  ⟨fun _ b _ hab hbc => strLe_trans _ b.1 _ hbc hab⟩

instance : IsTotal (RssItem × Option PyDateTime) entryRel :=
  ⟨fun _ _ => Nat.le_total _ _⟩

instance : IsTrans (RssItem × Option PyDateTime) entryRel :=
  ⟨fun _ _ _ hab hbc => le_trans hbc hab⟩

/-! ## Lemmas: grouping invariants -/

/-- Every entry of every bucket satisfies `S`, carries its own parse
result as annotation, and sits under its own key. -/
def GroupsInv (S : RssItem → Prop)
    (g : List (List Char × List (RssItem × Option PyDateTime))) : Prop :=
  ∀ p ∈ g, ∀ x ∈ p.2, S x.1 ∧ x.2 = parsePubDate x.1.pubDate ∧ entryKey x = p.1

theorem GroupsInv_tail (S : RssItem → Prop) (q) (g)
    (hg : GroupsInv S (q :: g)) : GroupsInv S g :=
  fun p hp => hg p (List.mem_cons_of_mem q hp)

theorem addToGroup_inv (S : RssItem → Prop) (k : List Char)
    (x : RssItem × Option PyDateTime)
    (hx : S x.1 ∧ x.2 = parsePubDate x.1.pubDate ∧ entryKey x = k) :
    ∀ g, GroupsInv S g → GroupsInv S (addToGroup k x g)
  | [], _ => by
    intro p hp y hy
    simp only [addToGroup, List.mem_singleton] at hp
    subst hp
    simp only [List.mem_singleton] at hy
    subst hy
    exact ⟨hx.1, hx.2.1, hx.2.2⟩
  | (k', xs) :: g, hg => by
    intro p hp y hy
    by_cases hk : k' = k
    · simp only [addToGroup, if_pos hk] at hp
      rcases List.mem_cons.mp hp with rfl | hp'
      · rcases List.mem_append.mp hy with hy' | hy'
        · exact hg (k', xs) (List.mem_cons_self _ _) y hy'
        · simp only [List.mem_singleton] at hy'
          subst hy'
          exact ⟨hx.1, hx.2.1, by rw [hx.2.2, hk]⟩
      · exact hg p (List.mem_cons_of_mem _ hp') y hy
    · simp only [addToGroup, if_neg hk] at hp
      rcases List.mem_cons.mp hp with rfl | hp'
      · exact hg (k', xs) (List.mem_cons_self _ _) y hy
      · exact addToGroup_inv S k x hx g (GroupsInv_tail S _ _ hg) p hp' y hy

theorem keys_addToGroup (k : List Char) (x : RssItem × Option PyDateTime) :
    ∀ g, (addToGroup k x g).map Prod.fst =
      if k ∈ g.map Prod.fst then g.map Prod.fst else g.map Prod.fst ++ [k]
  | [] => by simp [addToGroup]
  | (k', xs) :: g => by
    by_cases hk : k' = k
    · subst hk
      simp [addToGroup]
    · have hk' : ¬(k = k') := fun h => hk h.symm
      by_cases hmem : k ∈ g.map Prod.fst <;>
        simp [addToGroup, hk, hk', hmem, keys_addToGroup k x g]

theorem nodup_keys_addToGroup (k : List Char) (x : RssItem × Option PyDateTime)
    (g) (h : (g.map Prod.fst).Nodup) :
    ((addToGroup k x g).map Prod.fst).Nodup := by
  rw [keys_addToGroup]
  split_ifs with hmem
  · exact h
  · simp [List.nodup_append, h, hmem]

theorem mem_addToGroup_self (k : List Char) (x : RssItem × Option PyDateTime) :
    ∀ g, ∃ p ∈ addToGroup k x g, x ∈ p.2
  | [] => ⟨(k, [x]), by simp [addToGroup]⟩
  | (k', xs) :: g => by
    by_cases hk : k' = k
    · exact ⟨(k', xs ++ [x]), by simp [addToGroup, hk], by simp⟩
    · obtain ⟨p, hp, hxp⟩ := mem_addToGroup_self k x g
      exact ⟨p, by simp only [addToGroup, if_neg hk]; exact List.mem_cons_of_mem _ hp, hxp⟩

theorem mem_addToGroup_mono (k : List Char) (y x : RssItem × Option PyDateTime) :
    ∀ g, (∃ p ∈ g, x ∈ p.2) → ∃ p ∈ addToGroup k y g, x ∈ p.2
  | [], h => by
    obtain ⟨p, hp, _⟩ := h
    exact absurd hp (List.not_mem_nil p)
  | (k', xs) :: g, h => by
    obtain ⟨p, hp, hxp⟩ := h
    by_cases hk : k' = k
    · rcases List.mem_cons.mp hp with rfl | hp'
      · exact ⟨(k', xs ++ [y]), by simp [addToGroup, hk],
          List.mem_append_left _ hxp⟩
      · exact ⟨p, by simp only [addToGroup, if_pos hk]; exact List.mem_cons_of_mem _ hp', hxp⟩
    · rcases List.mem_cons.mp hp with rfl | hp'
      · exact ⟨(k', xs), by simp only [addToGroup, if_neg hk]; exact List.mem_cons_self _ _, hxp⟩
      · obtain ⟨p', hp'', hxp'⟩ := mem_addToGroup_mono k y x g ⟨p, hp', hxp⟩
        exact ⟨p', by simp only [addToGroup, if_neg hk]; exact List.mem_cons_of_mem _ hp'', hxp'⟩

theorem foldl_groups_inv (S : RssItem → Prop) :
    ∀ (items : List RssItem) (g0), GroupsInv S g0 → (∀ it ∈ items, S it) →
    GroupsInv S (items.foldl (fun g it =>
      match parsePubDate it.pubDate with
      | some dt => addToGroup (formatYM dt) (it, some dt) g
      | none => addToGroup unknownKey (it, none) g) g0)
  | [], _, hg, _ => hg
  | it :: items, g0, hg, hS => by
    simp only [List.foldl_cons]
    refine foldl_groups_inv S items _ ?_ (fun x hx => hS x (List.mem_cons_of_mem it hx))
    have hSit := hS it (List.mem_cons_self it items)
    cases h : parsePubDate it.pubDate with
    | some dt =>
      exact addToGroup_inv S (formatYM dt) (it, some dt) ⟨hSit, h.symm, rfl⟩ g0 hg
    | none =>
      exact addToGroup_inv S unknownKey (it, none) ⟨hSit, h.symm, rfl⟩ g0 hg

theorem foldl_keys_nodup :
    ∀ (items : List RssItem)
    (g0 : List (List Char × List (RssItem × Option PyDateTime))),
    (g0.map Prod.fst).Nodup →
    (((items.foldl (fun g it =>
      match parsePubDate it.pubDate with
      | some dt => addToGroup (formatYM dt) (it, some dt) g
      | none => addToGroup unknownKey (it, none) g) g0)).map Prod.fst).Nodup
  | [], _, hg => hg
  | it :: items, g0, hg => by
    simp only [List.foldl_cons]
    refine foldl_keys_nodup items _ ?_
    cases h : parsePubDate it.pubDate with
    | some dt => exact nodup_keys_addToGroup _ _ g0 hg
    | none => exact nodup_keys_addToGroup _ _ g0 hg

theorem foldl_mem_mono (x : RssItem × Option PyDateTime) :
    ∀ (items : List RssItem)
    (g0 : List (List Char × List (RssItem × Option PyDateTime))),
    (∃ p ∈ g0, x ∈ p.2) →
    ∃ p ∈ items.foldl (fun g it =>
      match parsePubDate it.pubDate with
      | some dt => addToGroup (formatYM dt) (it, some dt) g
      | none => addToGroup unknownKey (it, none) g) g0, x ∈ p.2
  | [], _, h => h
  | it :: items, g0, h => by
    simp only [List.foldl_cons]
    refine foldl_mem_mono x items _ ?_
    cases hp : parsePubDate it.pubDate with
    | some dt => exact mem_addToGroup_mono _ _ x g0 h
    | none => exact mem_addToGroup_mono _ _ x g0 h

theorem foldl_complete :
    ∀ (items : List RssItem)
    (g0 : List (List Char × List (RssItem × Option PyDateTime)))
    (it : RssItem), it ∈ items →
    ∃ p ∈ items.foldl (fun g it =>
      match parsePubDate it.pubDate with
      | some dt => addToGroup (formatYM dt) (it, some dt) g
      | none => addToGroup unknownKey (it, none) g) g0,
      (it, parsePubDate it.pubDate) ∈ p.2
  | [], _, it, hmem => absurd hmem (List.not_mem_nil it)
  | it0 :: items, g0, it, hmem => by
    rcases List.mem_cons.mp hmem with rfl | hmem'
    · simp only [List.foldl_cons]
      refine foldl_mem_mono _ items _ ?_
      cases h : parsePubDate it.pubDate with
      | some dt => exact mem_addToGroup_self (formatYM dt) (it, some dt) g0
      | none => exact mem_addToGroup_self unknownKey (it, none) g0
    · simp only [List.foldl_cons]
      exact foldl_complete items _ it hmem'

theorem rawGroups_inv (items : List RssItem) :
    GroupsInv (fun it => it ∈ items) (rawGroups items) :=
  foldl_groups_inv _ items []
    (fun p hp => absurd hp (List.not_mem_nil p)) (fun _ h => h)

theorem rawGroups_keys_nodup (items : List RssItem) :
    ((rawGroups items).map Prod.fst).Nodup :=
  foldl_keys_nodup items [] (by simp)

theorem rawGroups_complete (items : List RssItem) (it : RssItem) (h : it ∈ items) :
    ∃ p ∈ rawGroups items, (it, parsePubDate it.pubDate) ∈ p.2 :=
  foldl_complete items [] it h

theorem group_inv (items : List RssItem) :
    GroupsInv (fun it => it ∈ items) (group_items_by_month items) := by
  intro p hp x hx
  obtain ⟨q, hq, hpq⟩ := List.mem_map.mp hp
  have hq' : q ∈ rawGroups items :=
    (List.perm_insertionSort groupRel (rawGroups items)).subset hq
  have hx' : x ∈ q.2 := by
    have hx2 : x ∈ List.insertionSort entryRel q.2 := by
      rw [← hpq] at hx
      exact hx
    exact (List.perm_insertionSort entryRel q.2).subset hx2
  have h1 := rawGroups_inv items q hq' x hx'
  refine ⟨h1.1, h1.2.1, ?_⟩
  rw [h1.2.2, ← hpq]

theorem group_keys_nodup (items : List RssItem) :
    ((group_items_by_month items).map Prod.fst).Nodup := by
  unfold group_items_by_month sortGroups
  rw [List.map_map]
  have heq : (Prod.fst ∘ fun g : List Char × List (RssItem × Option PyDateTime) =>
      (g.1, List.insertionSort entryRel g.2)) = Prod.fst := rfl
  rw [heq]
  have hperm := (List.perm_insertionSort groupRel (rawGroups items)).map Prod.fst
  exact hperm.nodup_iff.mpr (rawGroups_keys_nodup items)

theorem group_complete (items : List RssItem) (it : RssItem) (h : it ∈ items) :
    ∃ g ∈ group_items_by_month items, (it, parsePubDate it.pubDate) ∈ g.2 := by
  obtain ⟨p, hp, hx⟩ := rawGroups_complete items it h
  have hp' : p ∈ List.insertionSort groupRel (rawGroups items) :=
    (List.perm_insertionSort groupRel (rawGroups items)).mem_iff.mpr hp
  refine ⟨(p.1, List.insertionSort entryRel p.2), List.mem_map.mpr ⟨p, hp', rfl⟩, ?_⟩
  exact (List.perm_insertionSort entryRel p.2).mem_iff.mpr hx

theorem group_pairwise_keys (items : List RssItem) :
    List.Pairwise groupRel (group_items_by_month items) := by
  unfold group_items_by_month sortGroups
  refine List.pairwise_map.mpr ?_
  exact List.sorted_insertionSort groupRel (rawGroups items)

theorem group_bucket_sorted (items : List RssItem) :
    ∀ g ∈ group_items_by_month items, List.Pairwise entryRel g.2 := by
  intro g hg
  obtain ⟨q, _, hpq⟩ := List.mem_map.mp hg
  rw [← hpq]
  exact List.sorted_insertionSort entryRel q.2

theorem main_foldlM_some :
    ∀ (items : List RssItem)
    (g0 : List (List Char × List (RssItem × Option PyDateTime))),
    (∀ it ∈ items, (parsePubDate it.pubDate).isSome) →
    (items.foldlM (fun g it => (parsePubDate it.pubDate).map
      (fun dt => addToGroup (formatYM dt) (it, some dt) g)) g0 :
      Option (List (List Char × List (RssItem × Option PyDateTime)))) =
    some (items.foldl (fun g it =>
      match parsePubDate it.pubDate with
      | some dt => addToGroup (formatYM dt) (it, some dt) g
      | none => addToGroup unknownKey (it, none) g) g0)
  | [], _, _ => rfl
  | it :: items, g0, hall => by
    obtain ⟨dt, hdt⟩ :=
      Option.isSome_iff_exists.mp (hall it (List.mem_cons_self it items))
    simp only [List.foldlM_cons, List.foldl_cons, hdt, Option.map_some', Option.some_bind]
    exact main_foldlM_some items _ (fun x hx => hall x (List.mem_cons_of_mem it hx))

theorem main_group_eq (items : List RssItem)
    (hall : ∀ it ∈ items, (parsePubDate it.pubDate).isSome) :
    main_group_items_by_month items = some (group_items_by_month items) := by
  unfold main_group_items_by_month
  rw [main_foldlM_some items [] hall]
  rfl

theorem main_render_groups_abort (readMdx : List Char → Option (List Char))
    (hr : ∀ s, readMdx s = none) :
    ∀ (G : List (List Char × List (RssItem × Option PyDateTime))) (acc : List Char),
    (∃ g ∈ G, g.1 ≠ unknownKey ∧ g.2 ≠ []) →
    main_render_groups readMdx G acc = none
  | [], _, h => by
    obtain ⟨g, hg, _⟩ := h
    exact absurd hg (List.not_mem_nil g)
  | g :: gs, acc, h => by
    obtain ⟨g', hmem, hne, hnemp⟩ := h
    simp only [main_render_groups]
    by_cases hu : g.1 = unknownKey
    · rw [if_pos hu]
      rcases List.mem_cons.mp hmem with rfl | hmem'
      · exact absurd hu hne
      · exact main_render_groups_abort readMdx hr gs acc ⟨g', hmem', hne, hnemp⟩
    · rw [if_neg hu]
      cases hg2 : g.2 with
      | nil =>
        rcases List.mem_cons.mp hmem with rfl | hmem'
        · exact absurd hg2 hnemp
        · exact main_render_groups_abort readMdx hr gs acc ⟨g', hmem', hne, hnemp⟩
      | cons first rest =>
        simp [main_render_items, hr]

/-- C7 (amended): with no readable per-slug files, the standalone
combiner (`combine_mdx.py`) still completes, emitting the frontmatter
followed by one empty wrapper block (open marker immediately followed by
the close marker) per non-`unknown` month group — only with no feed
items at all is the output just the frontmatter; `main.py`'s
`read_mdx_file` has no exception handler, so with at least one
(parseable) feed item its combine raises on the first read and aborts,
writing nothing. -/
theorem claim_combine_empty (items : List RssItem)
    (readMdx : List Char → Option (List Char)) (hr : ∀ s, readMdx s = none) :
    consolidate_changelog items readMdx =
      emptyWrappersFrom (group_items_by_month items) frontmatter ∧
    (items = [] → consolidate_changelog items readMdx = frontmatter) ∧
    ((∀ it ∈ items, (parsePubDate it.pubDate).isSome) → items ≠ [] →
      main_combine_changelog items readMdx = none) := by
  refine ⟨?_, ?_, ?_⟩
  · exact renderGroupsFrom_no_reads readMdx hr _ frontmatter
  · intro h
    subst h
    rfl
  · intro hall hne
    cases items with
    | nil => exact absurd rfl hne
    | cons it0 rest =>
      unfold main_combine_changelog
      rw [main_group_eq _ hall]
      simp only [Option.some_bind]
      obtain ⟨g, hg, hx⟩ :=
        group_complete (it0 :: rest) it0 (List.mem_cons_self it0 rest)
      have hinv := group_inv (it0 :: rest) g hg _ hx
      obtain ⟨dt, hdt⟩ :=
        Option.isSome_iff_exists.mp (hall it0 (List.mem_cons_self it0 rest))
      have hkey : g.1 = formatYM dt := by
        rw [← hinv.2.2]
        simp [entryKey, hdt]
      refine main_render_groups_abort readMdx hr _ frontmatter
        ⟨g, hg, ?_, List.ne_nil_of_mem hx⟩
      rw [hkey]
      exact formatYM_ne_unknown dt

theorem claim_combine_empty_witness :
    consolidate_changelog
        [⟨("https://e.com/a".toList), ("a".toList), ("Mon, 15 Jan 2024 10:00:00 GMT".toList)⟩]
        (fun _ => none) =
      emptyWrappersFrom
        (group_items_by_month
          [⟨("https://e.com/a".toList), ("a".toList), ("Mon, 15 Jan 2024 10:00:00 GMT".toList)⟩])
        frontmatter ∧
    ([⟨("https://e.com/a".toList), ("a".toList), ("Mon, 15 Jan 2024 10:00:00 GMT".toList)⟩] =
        ([] : List RssItem) →
      consolidate_changelog
        [⟨("https://e.com/a".toList), ("a".toList), ("Mon, 15 Jan 2024 10:00:00 GMT".toList)⟩]
        (fun _ => none) = frontmatter) ∧
    main_combine_changelog
        [⟨("https://e.com/a".toList), ("a".toList), ("Mon, 15 Jan 2024 10:00:00 GMT".toList)⟩]
        (fun _ => none) = none :=
  ⟨(claim_combine_empty
      [⟨("https://e.com/a".toList), ("a".toList), ("Mon, 15 Jan 2024 10:00:00 GMT".toList)⟩]
      (fun _ => none) (fun _ => rfl)).1,
   (claim_combine_empty
      [⟨("https://e.com/a".toList), ("a".toList), ("Mon, 15 Jan 2024 10:00:00 GMT".toList)⟩]
      (fun _ => none) (fun _ => rfl)).2.1,
   (claim_combine_empty
      [⟨("https://e.com/a".toList), ("a".toList), ("Mon, 15 Jan 2024 10:00:00 GMT".toList)⟩]
      (fun _ => none) (fun _ => rfl)).2.2 (by decide) (by decide)⟩

theorem addToGroup_nonempty (k : List Char) (x : RssItem × Option PyDateTime) :
    ∀ g, (∀ p ∈ g, p.2 ≠ []) → ∀ p ∈ addToGroup k x g, p.2 ≠ []
  | [], _ => by
    intro p hp
    simp only [addToGroup, List.mem_singleton] at hp
    subst hp
    simp
  | (k', xs) :: g, hg => by
    intro p hp
    by_cases hk : k' = k
    · simp only [addToGroup, if_pos hk] at hp
      rcases List.mem_cons.mp hp with rfl | hp'
      · simp
      · exact hg p (List.mem_cons_of_mem _ hp')
    · simp only [addToGroup, if_neg hk] at hp
      rcases List.mem_cons.mp hp with rfl | hp'
      · exact hg (k', xs) (List.mem_cons_self _ _)
      · exact addToGroup_nonempty k x g
          (fun q hq => hg q (List.mem_cons_of_mem _ hq)) p hp'

theorem foldl_nonempty :
    ∀ (items : List RssItem)
    (g0 : List (List Char × List (RssItem × Option PyDateTime))),
    (∀ p ∈ g0, p.2 ≠ []) →
    ∀ p ∈ items.foldl (fun g it =>
      match parsePubDate it.pubDate with
      | some dt => addToGroup (formatYM dt) (it, some dt) g
      | none => addToGroup unknownKey (it, none) g) g0, p.2 ≠ []
  | [], _, hg => hg
  | it :: items, g0, hg => by
    simp only [List.foldl_cons]
    refine foldl_nonempty items _ ?_
    cases h : parsePubDate it.pubDate with
    | some dt => exact addToGroup_nonempty _ _ g0 hg
    | none => exact addToGroup_nonempty _ _ g0 hg

theorem group_nonempty (items : List RssItem) :
    ∀ g ∈ group_items_by_month items, g.2 ≠ [] := by
  intro g hg
  obtain ⟨q, hq, hpq⟩ := List.mem_map.mp hg
  have hq' : q ∈ rawGroups items :=
    (List.perm_insertionSort groupRel (rawGroups items)).subset hq
  have hne : q.2 ≠ [] :=
    foldl_nonempty items [] (fun p hp => absurd hp (List.not_mem_nil p)) q hq'
  rw [← hpq]
  intro hcontra
  apply hne
  have hlen := (List.perm_insertionSort entryRel q.2).length_eq
  simp only at hcontra
  rw [hcontra] at hlen
  exact List.length_eq_zero.mp hlen.symm

theorem dtKeyNat_le_iff (a b : PyDateTime)
    (ba : a.month ≤ 12 ∧ a.day ≤ 31 ∧ a.hour ≤ 23 ∧ a.minute ≤ 59 ∧ a.second ≤ 59)
    (bb : b.month ≤ 12 ∧ b.day ≤ 31 ∧ b.hour ≤ 23 ∧ b.minute ≤ 59 ∧ b.second ≤ 59) :
    dtKeyNat a ≤ dtKeyNat b ↔ dtFieldLe a b := by
  unfold dtKeyNat dtFieldLe
  obtain ⟨ba1, ba2, ba3, ba4, ba5⟩ := ba
  obtain ⟨bb1, bb2, bb3, bb4, bb5⟩ := bb
  omega

/-! ## Claim C1: month grouping and ordering -/

/-- C1: when every item's `pub_date` parses, the grouped output has
(1) only real month buckets, each entry keyed by its own `"%Y-%m"` month
so two same-month items share a bucket and months are never split,
(2) every item present, (3) buckets in strictly descending (year, month)
order — so each month occurs exactly once and later months come first —
and (4) entries inside each bucket in descending order of their parsed
timestamps. -/
theorem claim_month_ordering (items : List RssItem)
    (hall : ∀ it ∈ items, (parsePubDate it.pubDate).isSome) :
    (∀ g ∈ group_items_by_month items, g.1 ≠ unknownKey ∧
      ∀ x ∈ g.2, ∃ dt, x.2 = some dt ∧ g.1 = formatYM dt) ∧
    (∀ it ∈ items, ∃ g ∈ group_items_by_month items,
      (it, parsePubDate it.pubDate) ∈ g.2) ∧
    List.Pairwise (fun g1 g2 => ∀ x1 ∈ g1.2, ∀ x2 ∈ g2.2,
      (entryDtOf x2).year < (entryDtOf x1).year ∨
        ((entryDtOf x2).year = (entryDtOf x1).year ∧
          (entryDtOf x2).month < (entryDtOf x1).month))
      (group_items_by_month items) ∧
    (∀ g ∈ group_items_by_month items,
      List.Pairwise (fun x1 x2 => dtFieldLe (entryDtOf x2) (entryDtOf x1)) g.2) := by
  have inv := group_inv items
  -- each entry of each bucket carries a parsed date matching the key
  have hentry : ∀ g ∈ group_items_by_month items, ∀ x ∈ g.2,
      ∃ dt, x.2 = some dt ∧ g.1 = formatYM dt ∧
        parsePubDate x.1.pubDate = some dt := by
    intro g hg x hx
    obtain ⟨hmem, hparse, hkey⟩ := inv g hg x hx
    obtain ⟨dt, hdt⟩ := Option.isSome_iff_exists.mp (hall x.1 hmem)
    have hx2 : x.2 = some dt := by rw [hparse, hdt]
    refine ⟨dt, hx2, ?_, hdt⟩
    rw [← hkey]
    simp [entryKey, hx2]
  refine ⟨?_, ?_, ?_, ?_⟩
  · intro g hg
    refine ⟨?_, fun x hx => ?_⟩
    · obtain ⟨x, hx⟩ := List.exists_mem_of_ne_nil g.2 (group_nonempty items g hg)
      obtain ⟨dt, _, hkey, _⟩ := hentry g hg x hx
      rw [hkey]
      exact formatYM_ne_unknown dt
    · obtain ⟨dt, h1, h2, _⟩ := hentry g hg x hx
      exact ⟨dt, h1, h2⟩
  · exact fun it h => group_complete items it h
  · have hnd := group_keys_nodup items
    have hnd' : List.Pairwise (fun g1 g2 :
        List Char × List (RssItem × Option PyDateTime) => g1.1 ≠ g2.1)
        (group_items_by_month items) := List.pairwise_map.mp hnd
    have hcomb := (group_pairwise_keys items).and hnd'
    refine hcomb.imp_of_mem ?_
    intro g1 g2 hg1 hg2 hrel x1 hx1 x2 hx2
    obtain ⟨hrel1, hne⟩ := hrel
    obtain ⟨dt1, hdt1, hkey1, hp1⟩ := hentry g1 hg1 x1 hx1
    obtain ⟨dt2, hdt2, hkey2, hp2⟩ := hentry g2 hg2 x2 hx2
    have hb1 := parsePubDate_bounds _ _ hp1
    have hb2 := parsePubDate_bounds _ _ hp2
    have he1 : entryDtOf x1 = dt1 := by simp [entryDtOf, hdt1]
    have he2 : entryDtOf x2 = dt2 := by simp [entryDtOf, hdt2]
    rw [he1, he2]
    have hle : strLe (formatYM dt2) (formatYM dt1) = true := by
      rw [← hkey1, ← hkey2]
      exact hrel1
    have hle' := (formatYM_le_iff dt2 dt1 hb2 hb1).mp hle
    have hne' : ¬(dt2.year = dt1.year ∧ dt2.month = dt1.month) := by
      rintro ⟨hy, hm⟩
      exact hne (by rw [hkey1, hkey2, formatYM_congr dt2 dt1 hy hm])
    rcases hle' with h | ⟨hy, hm⟩
    · exact Or.inl h
    · right
      refine ⟨hy, ?_⟩
      rcases lt_or_eq_of_le hm with h' | h'
      · exact h'
      · exact absurd ⟨hy, h'⟩ hne'
  · intro g hg
    refine (group_bucket_sorted items g hg).imp_of_mem ?_
    intro x1 x2 hx1 hx2 hrel
    obtain ⟨dt1, hdt1, _, hp1⟩ := hentry g hg x1 hx1
    obtain ⟨dt2, hdt2, _, hp2⟩ := hentry g hg x2 hx2
    have hb1 := parsePubDate_bounds _ _ hp1
    have hb2 := parsePubDate_bounds _ _ hp2
    unfold dtBounds at hb1 hb2
    have he1 : entryDtOf x1 = dt1 := by simp [entryDtOf, hdt1]
    have he2 : entryDtOf x2 = dt2 := by simp [entryDtOf, hdt2]
    rw [he1, he2]
    have hrel' : dtKeyNat dt2 ≤ dtKeyNat dt1 := by
      rw [← he1, ← he2]
      exact hrel
    exact (dtKeyNat_le_iff dt2 dt1 (by omega) (by omega)).mp hrel'

/-- Three items spanning two months, used to witness the grouping claim. -/
def witnessItems : List RssItem :=
  [⟨("https://e.com/a".toList), ("a".toList), ("Sat, 03 Feb 2024 01:02:03 GMT".toList)⟩,
   ⟨("https://e.com/b".toList), ("b".toList), ("Mon, 15 Jan 2024 10:00:00 GMT".toList)⟩,
   ⟨("https://e.com/c".toList), ("c".toList), ("Tue, 30 Jan 2024 23:59:59 GMT".toList)⟩]

theorem claim_month_ordering_witness :
    (∀ g ∈ group_items_by_month witnessItems, g.1 ≠ unknownKey ∧
      ∀ x ∈ g.2, ∃ dt, x.2 = some dt ∧ g.1 = formatYM dt) ∧
    (∀ it ∈ witnessItems, ∃ g ∈ group_items_by_month witnessItems,
      (it, parsePubDate it.pubDate) ∈ g.2) ∧
    List.Pairwise (fun g1 g2 => ∀ x1 ∈ g1.2, ∀ x2 ∈ g2.2,
      (entryDtOf x2).year < (entryDtOf x1).year ∨
        ((entryDtOf x2).year = (entryDtOf x1).year ∧
          (entryDtOf x2).month < (entryDtOf x1).month))
      (group_items_by_month witnessItems) ∧
    (∀ g ∈ group_items_by_month witnessItems,
      List.Pairwise (fun x1 x2 => dtFieldLe (entryDtOf x2) (entryDtOf x1)) g.2) :=
  claim_month_ordering witnessItems (by decide)

/-! ## Claim C6: unparseable dates -/

theorem emitted_items_eq (items : List RssItem)
    (readMdx : List Char → Option (List Char)) :
    emitted_items items readMdx =
      ((group_items_by_month items).map (fun g =>
        if g.1 = unknownKey then [] else g.2.filterMap (fun x =>
          match readMdx x.1.slug with
          | none => none
          | some c => if c = [] then none else some x.1))).flatten := by
  unfold emitted_items
  have key : ∀ (G : List (List Char × List (RssItem × Option PyDateTime)))
      (acc : List RssItem),
      G.foldl (fun acc g =>
        if g.1 = unknownKey then acc
        else acc ++ g.2.filterMap (fun x =>
          match readMdx x.1.slug with
          | none => none
          | some c => if c = [] then none else some x.1)) acc =
      acc ++ (G.map (fun g =>
        if g.1 = unknownKey then [] else g.2.filterMap (fun x =>
          match readMdx x.1.slug with
          | none => none
          | some c => if c = [] then none else some x.1))).flatten := by
    intro G
    induction G with
    | nil => intro acc; simp
    | cons g G ih =>
      intro acc
      simp only [List.foldl_cons, List.map_cons, List.flatten]
      by_cases hu : g.1 = unknownKey
      · simp [hu, ih]
      · simp [hu, ih, List.append_assoc]
  have h0 := key (group_items_by_month items) []
  simpa using h0

theorem mem_emitted_iff (items : List RssItem)
    (readMdx : List Char → Option (List Char)) (it : RssItem) :
    it ∈ emitted_items items readMdx ↔
      ∃ g ∈ group_items_by_month items, g.1 ≠ unknownKey ∧
        ∃ x ∈ g.2, x.1 = it ∧ ∃ c, readMdx x.1.slug = some c ∧ c ≠ [] := by
  rw [emitted_items_eq]
  simp only [List.mem_flatten, List.mem_map]
  constructor
  · rintro ⟨l, ⟨g, hg, rfl⟩, hit⟩
    by_cases hu : g.1 = unknownKey
    · simp [hu] at hit
    · simp only [if_neg hu] at hit
      obtain ⟨x, hx, hxit⟩ := List.mem_filterMap.mp hit
      cases hrc : readMdx x.1.slug with
      | none => rw [hrc] at hxit; simp at hxit
      | some c =>
        rw [hrc] at hxit
        by_cases hc : c = []
        · simp [hc] at hxit
        · simp only [if_neg hc, Option.some_inj] at hxit
          exact ⟨g, hg, hu, x, hx, hxit, c, hrc, hc⟩
  · rintro ⟨g, hg, hu, x, hx, hxit, c, hrc, hc⟩
    refine ⟨_, ⟨g, hg, rfl⟩, ?_⟩
    simp only [if_neg hu]
    refine List.mem_filterMap.mpr ⟨x, hx, ?_⟩
    rw [hrc]
    simp [hc, hxit]

theorem main_foldlM_none :
    ∀ (items : List RssItem)
    (g0 : List (List Char × List (RssItem × Option PyDateTime))),
    (∃ it ∈ items, parsePubDate it.pubDate = none) →
    (items.foldlM (fun g it => (parsePubDate it.pubDate).map
      (fun dt => addToGroup (formatYM dt) (it, some dt) g)) g0 :
      Option (List (List Char × List (RssItem × Option PyDateTime)))) = none
  | [], _, h => by
    obtain ⟨it, hmem, _⟩ := h
    exact absurd hmem (List.not_mem_nil it)
  | it0 :: items, g0, h => by
    obtain ⟨it, hmem, hp⟩ := h
    rcases List.mem_cons.mp hmem with rfl | hmem'
    · simp [List.foldlM_cons, hp]
    · cases hp0 : parsePubDate it0.pubDate with
      | none => simp [List.foldlM_cons, hp0]
      | some dt =>
        simp only [List.foldlM_cons, hp0, Option.map_some', Option.some_bind]
        exact main_foldlM_none items _ ⟨it, hmem', hp⟩

/-- C6 counterexample: in `main.py` an unparseable `pub_date` raises
`ValueError` out of `group_items_by_month`, so combine aborts and the
parseable item is never emitted. -/
theorem claim_unknown_bucket_counterexample :
    main_combine_changelog
        [⟨("https://e.com/x".toList), ("x".toList), ("bogus".toList)⟩,
         ⟨("https://e.com/a".toList), ("a".toList), ("Mon, 15 Jan 2024 10:00:00 GMT".toList)⟩]
        (fun _ => some ("y".toList)) = none ∧
    (parsePubDate ("Mon, 15 Jan 2024 10:00:00 GMT".toList)).isSome := by
  refine ⟨by decide, by decide⟩

/-- C6 (amended): in the standalone combiner (`combine_mdx.py`) every
item with an unparseable `pub_date` is routed to the `"unknown"` bucket
and never emitted, while every item that parses is emitted (given that
its file reads back non-empty); in `main.py` grouping raises on the
first unparseable date and the combine stage aborts. -/
theorem claim_unknown_bucket (items : List RssItem)
    (readMdx : List Char → Option (List Char))
    (hr : ∀ s, ∃ c, readMdx s = some c ∧ c ≠ []) :
    (∀ it ∈ items, parsePubDate it.pubDate = none →
      (∃ g ∈ group_items_by_month items, g.1 = unknownKey ∧ (it, none) ∈ g.2) ∧
      it ∉ emitted_items items readMdx) ∧
    (∀ it ∈ items, (parsePubDate it.pubDate).isSome →
      it ∈ emitted_items items readMdx) ∧
    (∀ items2 : List RssItem, (∃ it ∈ items2, parsePubDate it.pubDate = none) →
      main_group_items_by_month items2 = none) := by
  have inv := group_inv items
  refine ⟨?_, ?_, ?_⟩
  · intro it hmem hp
    constructor
    · obtain ⟨g, hg, hx⟩ := group_complete items it hmem
      rw [hp] at hx
      have hkey := (inv g hg (it, none) hx).2.2
      exact ⟨g, hg, by rw [← hkey]; rfl, hx⟩
    · intro hcontra
      obtain ⟨g, hg, hu, x, hx, hxit, _, _, _⟩ :=
        (mem_emitted_iff items readMdx it).mp hcontra
      obtain ⟨_, hparse, hkey⟩ := inv g hg x hx
      apply hu
      rw [← hkey]
      rw [hxit] at hparse
      rw [hp] at hparse
      simp [entryKey, hparse]
  · intro it hmem hps
    obtain ⟨dt, hdt⟩ := Option.isSome_iff_exists.mp hps
    obtain ⟨g, hg, hx⟩ := group_complete items it hmem
    rw [hdt] at hx
    have hinv := inv g hg (it, some dt) hx
    have hkey : g.1 = formatYM dt := by
      rw [← hinv.2.2]
      rfl
    obtain ⟨c, hrc, hc⟩ := hr it.slug
    refine (mem_emitted_iff items readMdx it).mpr
      ⟨g, hg, ?_, (it, some dt), hx, rfl, c, hrc, hc⟩
    rw [hkey]
    exact formatYM_ne_unknown dt
  · intro items2 h
    unfold main_group_items_by_month
    rw [main_foldlM_none items2 [] h]
    rfl

/-- One unparseable and one parseable item, to witness the unknown-bucket
claim. -/
def witnessItemsC6 : List RssItem :=
  [⟨("https://e.com/x".toList), ("x".toList), ("bogus".toList)⟩,
   ⟨("https://e.com/a".toList), ("a".toList), ("Mon, 15 Jan 2024 10:00:00 GMT".toList)⟩]

theorem claim_unknown_bucket_witness :
    (∀ it ∈ witnessItemsC6, parsePubDate it.pubDate = none →
      (∃ g ∈ group_items_by_month witnessItemsC6, g.1 = unknownKey ∧ (it, none) ∈ g.2) ∧
      it ∉ emitted_items witnessItemsC6 (fun _ => some ("y".toList))) ∧
    (∀ it ∈ witnessItemsC6, (parsePubDate it.pubDate).isSome →
      it ∈ emitted_items witnessItemsC6 (fun _ => some ("y".toList))) ∧
    (∀ items2 : List RssItem, (∃ it ∈ items2, parsePubDate it.pubDate = none) →
      main_group_items_by_month items2 = none) :=
  claim_unknown_bucket witnessItemsC6 (fun _ => some ("y".toList))
    (fun _ => ⟨("y".toList), rfl, by decide⟩)

end Changelog
